import Mathlib

set_option maxHeartbeats 1000000
set_option maxRecDepth 4000

/-
  Verification of the logistics workflow core of the repository:
  the in-memory order-event store (`agents/logistics/helpdesk/store/memory.py`),
  the status vocabulary and message codec (`common/logistics_states.py`),
  and the broadcast orchestrator tooling
  (`agents/supervisors/logistics/graph/tools.py`).

  The Python code is shallowly embedded: the store's dict becomes a function
  `String → Option (List OrderEvent)`, the asyncio lock disappears (every
  operation is an atomic state transformer, matching the single-mutex design),
  blocking waits become result functions parameterised by whether the timeout
  fired, and Python strings are modelled through their character lists
  (ASCII semantics for lowercasing, whitespace and the `\w` regex class).
-/

/-- One observed status narrative (the pydantic `OrderEvent` model in
`store/event.py`).  The timestamp is abstracted to a natural number; all other
fields are strings exactly as in the source. -/
structure OrderEvent where
  order_id : String
  sender : String
  receiver : String
  message : String
  state : String
  timestamp : Nat
deriving DecidableEq

instance : Inhabited OrderEvent := ⟨⟨"", "", "", "", "", 0⟩⟩

/-- State of `InMemoryOrderEventStore`: the `_data` dict (keyed by order id),
the `_order_seq` counter, and the `_new_orders` creation ledger. -/
structure StoreState where
  data : String → Option (List OrderEvent)
  order_seq : Nat
  new_orders : List (Nat × String)

namespace StoreState

/-- Fresh store, as built by `__init__`. -/
def initial : StoreState := ⟨fun _ => none, 0, []⟩

/-- Current stream of an order id: `self._data.get(order_id, [])`. -/
def stream (s : StoreState) (oid : String) : List OrderEvent :=
  (s.data oid).getD []

/-- Key membership: `order_id in self._data`. -/
def hasKey (s : StoreState) (oid : String) : Bool :=
  (s.data oid).isSome

/-- Point update of the `_data` dict. -/
def setData (s : StoreState) (oid : String) (v : List OrderEvent) :
    String → Option (List OrderEvent) :=
  fun k => if k = oid then some v else s.data k

/-- Translation of `InMemoryOrderEventStore.set`.  The state update replaces
the full list; a creation sequence is allocated only when the order id was
previously unseen and the incoming list is non-empty.  (The `new_tail`
computation of the source only feeds `notify_all`, which mutates nothing, so
it does not appear in the state transformer.) -/
def set (s : StoreState) (oid : String) (events : List OrderEvent) : StoreState :=
  let data' := s.setData oid events
  if s.hasKey oid = false ∧ events ≠ [] then
    { data := data', order_seq := s.order_seq + 1,
      new_orders := s.new_orders ++ [(s.order_seq + 1, oid)] }
  else
    { s with data := data' }

/-- Translation of `InMemoryOrderEventStore.append`: appends one event,
allocates a creation sequence iff the order id was previously unseen, and
returns the new length of the list. -/
def append (s : StoreState) (oid : String) (e : OrderEvent) : StoreState × Nat :=
  let lst := s.stream oid ++ [e]
  let data' := s.setData oid lst
  if s.hasKey oid = false then
    ({ data := data', order_seq := s.order_seq + 1,
       new_orders := s.new_orders ++ [(s.order_seq + 1, oid)] }, lst.length)
  else
    ({ s with data := data' }, lst.length)

/-- Translation of `InMemoryOrderEventStore.delete`: removes the stream when
present; the sequence counter and the ledger are untouched. -/
def delete (s : StoreState) (oid : String) : StoreState :=
  if s.hasKey oid then
    { s with data := fun k => if k = oid then none else s.data k }
  else s

/-- Translation of `InMemoryOrderEventStore.get`: a snapshot of the stream,
paired with the (unchanged) store state — the method only reads under the
lock. -/
def get (s : StoreState) (oid : String) : List OrderEvent × StoreState :=
  (s.stream oid, s)

/-- Translation of `InMemoryOrderEventStore.wait_for_events`.  The first
component is the returned pair; `none` models a call that is still parked
(no timeout given and nothing beyond `last_index` yet).  `timedOut` records
whether `asyncio.wait_for` raised `TimeoutError`; the state argument is the
store state at the moment the call stops blocking.  The method never mutates
the store, hence the unchanged second component. -/
def waitForEvents (s : StoreState) (oid : String) (last_index : Nat)
    (timedOut : Bool) : Option (List OrderEvent × Nat) × StoreState :=
  let full := s.stream oid
  if full.length > last_index then
    (some (full.drop last_index, full.length), s)
  else if timedOut then
    (some ([], last_index), s)
  else
    (none, s)

/-- Translation of `InMemoryOrderEventStore.wait_for_new_orders`, in the same
style as `waitForEvents`. -/
def waitForNewOrders (s : StoreState) (last_seq : Nat) (timedOut : Bool) :
    Option (List (Nat × String) × Nat) × StoreState :=
  if s.order_seq > last_seq then
    (some (s.new_orders.filter (fun p => p.1 > last_seq), s.order_seq), s)
  else if timedOut then
    (some ([], last_seq), s)
  else
    (none, s)

/-- Translation of `InMemoryOrderEventStore.latest_order`. -/
def latestOrder (s : StoreState) : Option (Nat × String) × StoreState :=
  (s.new_orders.getLast?, s)

/-- Mutating store calls, for quantifying over call sequences. -/
inductive StoreOp where
  | setOp (oid : String) (events : List OrderEvent)
  | appendOp (oid : String) (e : OrderEvent)
  | deleteOp (oid : String)

/-- Effect of one mutating call. -/
def applyOp (s : StoreState) : StoreOp → StoreState
  | .setOp oid evs => s.set oid evs
  | .appendOp oid e => (s.append oid e).1
  | .deleteOp oid => s.delete oid

/-- State after a finite sequence of mutating calls on a fresh store.
(`get`, `wait_for_events`, `wait_for_new_orders` and `latest_order` leave the
state unchanged — see their definitions — so every reachable state is of this
form.) -/
def runOps (ops : List StoreOp) : StoreState :=
  ops.foldl applyOp initial

/-- Repeated `append` of a list of events to one order id. -/
def appendMany (s : StoreState) (oid : String) (more : List OrderEvent) :
    StoreState :=
  more.foldl (fun st e => (st.append oid e).1) s

theorem stream_append_self (s : StoreState) (oid : String) (e : OrderEvent) :
    ((s.append oid e).1).stream oid = s.stream oid ++ [e] := by
  by_cases h : s.hasKey oid = false <;>
    simp [append, h, stream, setData]

theorem stream_appendMany (s : StoreState) (oid : String)
    (more : List OrderEvent) :
    (s.appendMany oid more).stream oid = s.stream oid ++ more := by
  induction more generalizing s with
  | nil => simp [appendMany]
  | cons e rest ih =>
      have h1 : s.appendMany oid (e :: rest) =
          ((s.append oid e).1).appendMany oid rest := rfl
      rw [h1, ih, stream_append_self]
      simp

end StoreState

/-- Sample events used by concrete witnesses. -/
def ev1 : OrderEvent := ⟨"O1", "Farm", "Shipper", "m1", "HANDOVER_TO_SHIPPER", 0⟩

/-- Second sample event. -/
def ev2 : OrderEvent := ⟨"O1", "Shipper", "Supervisor", "done", "DELIVERED", 1⟩


theorem data_set (s : StoreState) (oid : String) (evs : List OrderEvent) :
    (s.set oid evs).data = s.setData oid evs := by
  unfold StoreState.set
  split <;> rfl

theorem data_append (s : StoreState) (oid : String) (e : OrderEvent) :
    ((s.append oid e).1).data = s.setData oid (s.stream oid ++ [e]) := by
  unfold StoreState.append
  split <;> rfl

theorem data_delete (s : StoreState) (oid k : String) :
    (s.delete oid).data k = if k = oid then none else s.data k := by
  unfold StoreState.delete
  split
  · rfl
  · rename_i h
    by_cases hk : k = oid
    · subst hk
      rw [if_pos rfl]
      simpa [StoreState.hasKey, Option.isSome_iff_ne_none] using h
    · rw [if_neg hk]

theorem hasKey_set (s : StoreState) (oid : String) (evs : List OrderEvent)
    (k : String) :
    (s.set oid evs).hasKey k = if k = oid then true else s.hasKey k := by
  by_cases hk : k = oid <;>
    simp [StoreState.hasKey, data_set, StoreState.setData, hk]

theorem hasKey_append (s : StoreState) (oid : String) (e : OrderEvent)
    (k : String) :
    ((s.append oid e).1).hasKey k = if k = oid then true else s.hasKey k := by
  by_cases hk : k = oid <;>
    simp [StoreState.hasKey, data_append, StoreState.setData, hk]

theorem hasKey_delete (s : StoreState) (oid : String) (k : String) :
    (s.delete oid).hasKey k = if k = oid then false else s.hasKey k := by
  by_cases hk : k = oid <;> simp [StoreState.hasKey, data_delete, hk]

theorem new_orders_set (s : StoreState) (oid : String)
    (evs : List OrderEvent) :
    (s.set oid evs).new_orders =
      if s.hasKey oid = false ∧ evs ≠ [] then
        s.new_orders ++ [(s.order_seq + 1, oid)]
      else s.new_orders := by
  by_cases h : s.hasKey oid = false ∧ evs ≠ [] <;> simp [StoreState.set, h]

theorem new_orders_append (s : StoreState) (oid : String) (e : OrderEvent) :
    ((s.append oid e).1).new_orders =
      if s.hasKey oid = false then s.new_orders ++ [(s.order_seq + 1, oid)]
      else s.new_orders := by
  by_cases h : s.hasKey oid = false <;> simp [StoreState.append, h]

theorem order_seq_set (s : StoreState) (oid : String) (evs : List OrderEvent) :
    (s.set oid evs).order_seq =
      if s.hasKey oid = false ∧ evs ≠ [] then s.order_seq + 1
      else s.order_seq := by
  by_cases h : s.hasKey oid = false ∧ evs ≠ [] <;> simp [StoreState.set, h]

theorem order_seq_append (s : StoreState) (oid : String) (e : OrderEvent) :
    ((s.append oid e).1).order_seq =
      if s.hasKey oid = false then s.order_seq + 1 else s.order_seq := by
  by_cases h : s.hasKey oid = false <;> simp [StoreState.append, h]

theorem delete_ledger_frame (s : StoreState) (oid : String) :
    (s.delete oid).new_orders = s.new_orders ∧
      (s.delete oid).order_seq = s.order_seq := by
  by_cases h : s.hasKey oid <;> simp [StoreState.delete, h]

/-- Ledger invariant of the store: strictly increasing sequence numbers, the
counter equals the number of ledger entries, every entry is bounded by the
counter, and the last entry carries the counter value. -/
def LedgerInv (s : StoreState) : Prop :=
  List.Pairwise (fun p q : Nat × String => p.1 < q.1) s.new_orders ∧
  s.order_seq = s.new_orders.length ∧
  (∀ p ∈ s.new_orders, p.1 ≤ s.order_seq) ∧
  (∀ p, s.new_orders.getLast? = some p → p.1 = s.order_seq)

theorem ledgerInv_initial : LedgerInv StoreState.initial := by
  refine ⟨by simp [StoreState.initial], by simp [StoreState.initial], ?_, ?_⟩ <;>
    simp [StoreState.initial]

theorem ledgerInv_alloc (s : StoreState) (oid : String)
    (d : String → Option (List OrderEvent)) (h : LedgerInv s) :
    LedgerInv ⟨d, s.order_seq + 1,
      s.new_orders ++ [(s.order_seq + 1, oid)]⟩ := by
  obtain ⟨hpw, hlen, hbound, _⟩ := h
  refine ⟨?_, ?_, ?_, ?_⟩
  · rw [List.pairwise_append]
    refine ⟨hpw, by simp, ?_⟩
    intro p hp q hq
    simp at hq
    subst hq
    have := hbound p hp
    show p.1 < s.order_seq + 1
    omega
  · simp [hlen]
  · intro p hp
    simp at hp
    rcases hp with hp | hp
    · have := hbound p hp
      show p.1 ≤ s.order_seq + 1
      omega
    · subst hp
      show s.order_seq + 1 ≤ s.order_seq + 1
      exact Nat.le_refl _
  · intro p hp
    rw [List.getLast?_concat] at hp
    cases hp
    rfl

theorem ledgerInv_applyOp (s : StoreState) (op : StoreState.StoreOp)
    (h : LedgerInv s) : LedgerInv (s.applyOp op) := by
  cases op with
  | setOp oid evs =>
      show LedgerInv (s.set oid evs)
      unfold StoreState.set
      by_cases hc : s.hasKey oid = false ∧ evs ≠ []
      · simpa [hc] using ledgerInv_alloc s oid (s.setData oid evs) h
      · simpa [hc] using h
  | appendOp oid e =>
      show LedgerInv ((s.append oid e).1)
      unfold StoreState.append
      by_cases hc : s.hasKey oid = false
      · simpa [hc] using
          ledgerInv_alloc s oid (s.setData oid (s.stream oid ++ [e])) h
      · simpa [hc] using h
  | deleteOp oid =>
      show LedgerInv (s.delete oid)
      unfold StoreState.delete
      by_cases hc : s.hasKey oid
      · simpa [hc] using h
      · simpa [hc] using h

theorem ledgerInv_foldl (ops : List StoreState.StoreOp) :
    ∀ s : StoreState, LedgerInv s → LedgerInv (ops.foldl StoreState.applyOp s) := by
  induction ops with
  | nil => intro s h; exact h
  | cons op rest ih =>
      intro s h
      exact ih (s.applyOp op) (ledgerInv_applyOp s op h)

theorem ledgerInv_runOps (ops : List StoreState.StoreOp) :
    LedgerInv (StoreState.runOps ops) :=
  ledgerInv_foldl ops StoreState.initial ledgerInv_initial

/-- Specification-level replay of which order ids are allocated creation
sequences by a call sequence, given the current key-presence predicate:
`append` on an absent key always allocates, `set` on an absent key allocates
iff the incoming list is non-empty (but marks the key present either way),
and `delete` removes presence. -/
def allocAfter (present : String → Bool) : List StoreState.StoreOp → List String
  | [] => []
  | .appendOp oid _ :: ops =>
      if present oid then allocAfter present ops
      else oid :: allocAfter (fun k => if k = oid then true else present k) ops
  | .setOp oid evs :: ops =>
      if present oid then allocAfter present ops
      else if evs ≠ [] then
        oid :: allocAfter (fun k => if k = oid then true else present k) ops
      else allocAfter (fun k => if k = oid then true else present k) ops
  | .deleteOp oid :: ops =>
      allocAfter (fun k => if k = oid then false else present k) ops

/-- Order ids allocated creation sequences by a call sequence on a fresh
store. -/
def allocOids (ops : List StoreState.StoreOp) : List String :=
  allocAfter (fun _ => false) ops

theorem allocAfter_congr (p₁ p₂ : String → Bool) (h : ∀ k, p₁ k = p₂ k) :
    ∀ ops, allocAfter p₁ ops = allocAfter p₂ ops := by
  intro ops
  induction ops generalizing p₁ p₂ with
  | nil => rfl
  | cons op rest ih =>
      cases op with
      | appendOp oid e =>
          simp only [allocAfter, h oid]
          by_cases hp : p₂ oid = true
          · simp [hp, ih _ _ h]
          · simp only [Bool.not_eq_true] at hp
            simp [hp]
            exact ih _ _ (fun k => by by_cases hk : k = oid <;> simp [hk, h k])
      | setOp oid evs =>
          simp only [allocAfter, h oid]
          by_cases hp : p₂ oid = true
          · simp [hp, ih _ _ h]
          · simp only [Bool.not_eq_true] at hp
            by_cases he : evs = []
            · simp [hp, he]
              exact ih _ _ (fun k => by by_cases hk : k = oid <;> simp [hk, h k])
            · simp [hp, he]
              exact ih _ _ (fun k => by by_cases hk : k = oid <;> simp [hk, h k])
      | deleteOp oid =>
          simp only [allocAfter]
          exact ih _ _ (fun k => by by_cases hk : k = oid <;> simp [hk, h k])

theorem map_snd_foldl (ops : List StoreState.StoreOp) :
    ∀ s : StoreState,
      ((ops.foldl StoreState.applyOp s).new_orders.map Prod.snd) =
        s.new_orders.map Prod.snd ++ allocAfter (fun k => s.hasKey k) ops := by
  induction ops with
  | nil => intro s; simp [allocAfter]
  | cons op rest ih =>
      intro s
      have step : (op :: rest).foldl StoreState.applyOp s =
          rest.foldl StoreState.applyOp (s.applyOp op) := rfl
      rw [step, ih (s.applyOp op)]
      cases op with
      | appendOp oid e =>
          show ((s.append oid e).1).new_orders.map Prod.snd ++
              allocAfter (fun k => ((s.append oid e).1).hasKey k) rest = _
          by_cases hc : s.hasKey oid = false
          · have h1 : ((s.append oid e).1).new_orders.map Prod.snd =
                s.new_orders.map Prod.snd ++ [oid] := by
              rw [new_orders_append, if_pos hc]
              simp
            have h2 : allocAfter (fun k => ((s.append oid e).1).hasKey k) rest
                = allocAfter (fun k => if k = oid then true else s.hasKey k)
                    rest :=
              allocAfter_congr _ _ (fun k => hasKey_append s oid e k) rest
            have h3 : allocAfter (fun k => s.hasKey k)
                  (StoreState.StoreOp.appendOp oid e :: rest) =
                oid :: allocAfter (fun k => if k = oid then true else
                  s.hasKey k) rest := by
              simp only [allocAfter]
              rw [if_neg (by simp [hc])]
            rw [h1, h2, h3]
            simp
          · have hc' : s.hasKey oid = true := by simpa using hc
            have h1 : ((s.append oid e).1).new_orders = s.new_orders := by
              rw [new_orders_append, if_neg (by simp [hc'])]
            have h2 : allocAfter (fun k => ((s.append oid e).1).hasKey k) rest
                = allocAfter (fun k => s.hasKey k) rest :=
              allocAfter_congr _ _ (fun k => by
                rw [hasKey_append]
                by_cases hk : k = oid <;> simp [hk, hc']) rest
            have h3 : allocAfter (fun k => s.hasKey k)
                  (StoreState.StoreOp.appendOp oid e :: rest) =
                allocAfter (fun k => s.hasKey k) rest := by
              simp only [allocAfter]
              rw [if_pos hc']
            rw [h1, h2, h3]
      | setOp oid evs =>
          show (s.set oid evs).new_orders.map Prod.snd ++
              allocAfter (fun k => (s.set oid evs).hasKey k) rest = _
          have h2 : allocAfter (fun k => (s.set oid evs).hasKey k) rest
              = allocAfter (fun k => if k = oid then true else s.hasKey k)
                  rest :=
            allocAfter_congr _ _ (fun k => hasKey_set s oid evs k) rest
          by_cases hc : s.hasKey oid = false
          · by_cases he : evs = []
            · have h1 : (s.set oid evs).new_orders = s.new_orders := by
                rw [new_orders_set, if_neg (by simp [he])]
              have h3 : allocAfter (fun k => s.hasKey k)
                    (StoreState.StoreOp.setOp oid evs :: rest) =
                  allocAfter (fun k => if k = oid then true else s.hasKey k)
                    rest := by
                simp only [allocAfter]
                rw [if_neg (by simp [hc]), if_neg (by simp [he])]
              rw [h1, h2, h3]
            · have h1 : (s.set oid evs).new_orders.map Prod.snd =
                  s.new_orders.map Prod.snd ++ [oid] := by
                rw [new_orders_set, if_pos ⟨hc, he⟩]
                simp
              have h3 : allocAfter (fun k => s.hasKey k)
                    (StoreState.StoreOp.setOp oid evs :: rest) =
                  oid :: allocAfter (fun k => if k = oid then true else
                    s.hasKey k) rest := by
                simp only [allocAfter]
                rw [if_neg (by simp [hc]), if_pos (by simp [he])]
              rw [h1, h2, h3]
              simp
          · have hc' : s.hasKey oid = true := by simpa using hc
            have h1 : (s.set oid evs).new_orders = s.new_orders := by
              rw [new_orders_set, if_neg (by simp [hc'])]
            have h2' : allocAfter (fun k => if k = oid then true else
                  s.hasKey k) rest = allocAfter (fun k => s.hasKey k) rest :=
              allocAfter_congr _ _ (fun k => by
                by_cases hk : k = oid <;> simp [hk, hc']) rest
            have h3 : allocAfter (fun k => s.hasKey k)
                  (StoreState.StoreOp.setOp oid evs :: rest) =
                allocAfter (fun k => s.hasKey k) rest := by
              simp only [allocAfter]
              rw [if_pos hc']
            rw [h1, h2, h2', h3]
      | deleteOp oid =>
          show (s.delete oid).new_orders.map Prod.snd ++
              allocAfter (fun k => (s.delete oid).hasKey k) rest = _
          rw [(delete_ledger_frame s oid).1]
          have h2 : allocAfter (fun k => (s.delete oid).hasKey k) rest
              = allocAfter (fun k => if k = oid then false else s.hasKey k)
                  rest :=
            allocAfter_congr _ _ (fun k => hasKey_delete s oid k) rest
          have h3 : allocAfter (fun k => s.hasKey k)
                (StoreState.StoreOp.deleteOp oid :: rest) =
              allocAfter (fun k => if k = oid then false else s.hasKey k)
                rest := by
            simp only [allocAfter]
          rw [h2, h3]

theorem map_snd_runOps (ops : List StoreState.StoreOp) :
    (StoreState.runOps ops).new_orders.map Prod.snd = allocOids ops := by
  have h := map_snd_foldl ops StoreState.initial
  simpa [StoreState.runOps, StoreState.initial, StoreState.hasKey,
    allocOids] using h

theorem waitForEvents_snd (s : StoreState) (oid : String) (k : Nat)
    (t : Bool) : (s.waitForEvents oid k t).2 = s := by
  unfold StoreState.waitForEvents
  by_cases h : (s.stream oid).length > k
  · simp [h]
  · cases t <;> simp [h]

theorem waitForNewOrders_snd (s : StoreState) (q : Nat) (t : Bool) :
    (s.waitForNewOrders q t).2 = s := by
  unfold StoreState.waitForNewOrders
  by_cases h : s.order_seq > q
  · simp [h]
  · cases t <;> simp [h]

/-- C10: in every state reachable by any sequence of store calls, the
creation-ledger entries carry strictly increasing sequence numbers, the
counter `_order_seq` equals the number of ledger entries, the last entry
(when present) carries sequence `_order_seq`, and `get`, `delete` and the
wait operations never modify the ledger or the counter (the read-only calls
do not modify the state at all). -/
theorem C10_ledger_invariant (ops : List StoreState.StoreOp) :
    List.Pairwise (fun p q : Nat × String => p.1 < q.1)
        (StoreState.runOps ops).new_orders ∧
    (StoreState.runOps ops).order_seq =
        (StoreState.runOps ops).new_orders.length ∧
    (∀ p, (StoreState.runOps ops).new_orders.getLast? = some p →
        p.1 = (StoreState.runOps ops).order_seq) ∧
    (∀ oid, ((StoreState.runOps ops).delete oid).new_orders =
          (StoreState.runOps ops).new_orders ∧
        ((StoreState.runOps ops).delete oid).order_seq =
          (StoreState.runOps ops).order_seq) ∧
    (∀ oid, ((StoreState.runOps ops).get oid).2 = StoreState.runOps ops) ∧
    (∀ oid k t, ((StoreState.runOps ops).waitForEvents oid k t).2 =
        StoreState.runOps ops) ∧
    (∀ q t, ((StoreState.runOps ops).waitForNewOrders q t).2 =
        StoreState.runOps ops) ∧
    ((StoreState.runOps ops).latestOrder).2 = StoreState.runOps ops := by
  obtain ⟨h1, h2, _, h4⟩ := ledgerInv_runOps ops
  refine ⟨h1, h2, h4, fun oid => delete_ledger_frame _ oid,
    fun oid => rfl, fun oid k t => waitForEvents_snd _ oid k t,
    fun q t => waitForNewOrders_snd _ q t, rfl⟩

/-- Witness for C10 at a concrete call sequence: after
`append("A", ev1); set("B", [ev2]); delete("A")` the ledger ends with
`(2, "B")` and the theorem yields that this last sequence number equals the
counter. -/
theorem C10_ledger_invariant_witness :
    (StoreState.runOps [.appendOp "A" ev1, .setOp "B" [ev2],
        .deleteOp "A"]).new_orders.getLast? = some (2, "B") ∧
    ((2, "B") : Nat × String).1 =
      (StoreState.runOps [.appendOp "A" ev1, .setOp "B" [ev2],
        .deleteOp "A"]).order_seq :=
  ⟨by decide,
    (C10_ledger_invariant [.appendOp "A" ev1, .setOp "B" [ev2],
      .deleteOp "A"]).2.2.1 (2, "B") (by decide)⟩

/-- C2 as stated is false on the code: `set("A", [])` marks the order id
present without allocating a creation sequence, and the subsequent
`append("A", ev1)` sees the key as already present and allocates nothing, so
`latest_order()` is `None` even though `"A"` has received non-empty content
via `append`. -/
theorem C2_counterexample_set_empty_then_append :
    ((StoreState.runOps [.setOp "A" [], .appendOp "A" ev1]).latestOrder).1
        = none ∧
    (StoreState.runOps [.setOp "A" [], .appendOp "A" ev1]).stream "A"
        = [ev1] := by
  constructor <;> decide

/-- C2, amended: after any finite sequence of `set`/`append`/`delete` calls,
`latest_order()` returns the ledger entry with the maximum creation sequence,
and returns `None` iff no creation sequence was ever allocated; a creation
sequence is allocated exactly when an `append` — or a `set` with a non-empty
list — targets an order id not currently present in the store map.  In
particular an order id whose first contact is `set(oid, [])` is never
allocated a sequence even if `append` later adds non-empty content, and
`delete` removes presence so a later `append`/non-empty `set` re-allocates. -/
theorem C2_latest_order_amended (ops : List StoreState.StoreOp) :
    ((StoreState.runOps ops).new_orders.map Prod.snd = allocOids ops) ∧
    (((StoreState.runOps ops).latestOrder).1 = none ↔ allocOids ops = []) ∧
    (∀ q, ((StoreState.runOps ops).latestOrder).1 = some q →
        ∀ p ∈ (StoreState.runOps ops).new_orders, p.1 ≤ q.1) := by
  obtain ⟨_, _, hbound, hlast⟩ := ledgerInv_runOps ops
  refine ⟨map_snd_runOps ops, ?_, ?_⟩
  · rw [← map_snd_runOps ops]
    show (StoreState.runOps ops).new_orders.getLast? = none ↔ _
    rw [List.getLast?_eq_none_iff, List.map_eq_nil_iff]
  · intro q hq p hp
    have h1 := hlast q hq
    have h2 := hbound p hp
    omega

/-- Witness for C2 (amended) at a concrete call sequence:
`append("A", ev1); set("B", [ev2])` allocates sequences for `"A"` then
`"B"`, the latest order is `(2, "B")`, and every ledger entry is bounded by
its sequence 2. -/
theorem C2_latest_order_amended_witness :
    allocOids [.appendOp "A" ev1, .setOp "B" [ev2]] = ["A", "B"] ∧
    ((StoreState.runOps [.appendOp "A" ev1, .setOp "B" [ev2]]).latestOrder).1
      = some (2, "B") ∧
    (∀ p ∈ (StoreState.runOps
        [.appendOp "A" ev1, .setOp "B" [ev2]]).new_orders, p.1 ≤ 2) :=
  ⟨by decide, by decide,
    (C2_latest_order_amended [.appendOp "A" ev1, .setOp "B" [ev2]]).2.2
      (2, "B") (by decide)⟩

theorem waitForEvents_fst (s : StoreState) (oid : String) (k : Nat) (t : Bool) :
    (s.waitForEvents oid k t).1 =
      if (s.stream oid).length > k then
        some ((s.stream oid).drop k, (s.stream oid).length)
      else if t then some ([], k) else none := by
  unfold StoreState.waitForEvents
  by_cases h : (s.stream oid).length > k
  · simp [h]
  · cases t <;> simp [h]

/-- C1: for every order id and non-negative index `k`, `wait_for_events`
returns `([], k)` — the literal `k`, not the current length — exactly when the
timeout expires with `len(events) ≤ k`; whenever events beyond `k` exist it
returns `(events[k:], len(events))`; and two consecutive calls whose second
index is the index returned by the first cover the extended stream exactly
once (no partial and no duplicated slice). -/
theorem C1_wait_for_events_exact :
    (∀ (s : StoreState) (oid : String) (k : Nat) (t : Bool),
       (t = true → (s.stream oid).length ≤ k →
          (s.waitForEvents oid k t).1 = some ([], k)) ∧
       ((s.stream oid).length > k →
          (s.waitForEvents oid k t).1 =
            some ((s.stream oid).drop k, (s.stream oid).length)) ∧
       ((s.waitForEvents oid k t).1 = none ↔
          t = false ∧ (s.stream oid).length ≤ k)) ∧
    (∀ (s : StoreState) (oid : String) (k : Nat) (t₁ t₂ : Bool)
       (more xs ys : List OrderEvent) (i j : Nat),
       k ≤ (s.stream oid).length →
       (s.waitForEvents oid k t₁).1 = some (xs, i) →
       ((s.appendMany oid more).waitForEvents oid i t₂).1 = some (ys, j) →
       xs ++ ys = ((s.appendMany oid more).stream oid).drop k) := by
  constructor
  · intro s oid k t
    refine ⟨?_, ?_, ?_⟩
    · intro ht hle
      rw [waitForEvents_fst, if_neg (by omega), if_pos ht]
    · intro hgt
      rw [waitForEvents_fst, if_pos hgt]
    · rw [waitForEvents_fst]
      by_cases hgt : (s.stream oid).length > k
      · simp [hgt]
      · cases t <;> simp [hgt] <;> omega
  · intro s oid k t₁ t₂ more xs ys i j hk h1 h2
    rw [waitForEvents_fst] at h1 h2
    rw [StoreState.stream_appendMany] at h2 ⊢
    by_cases hgt : (s.stream oid).length > k
    · -- first call observed events beyond k
      rw [if_pos hgt] at h1
      simp only [Option.some.injEq, Prod.mk.injEq] at h1
      obtain ⟨hxs, hi⟩ := h1
      subst hi
      by_cases hgt2 : (s.stream oid ++ more).length > (s.stream oid).length
      · rw [if_pos hgt2] at h2
        simp only [Option.some.injEq, Prod.mk.injEq] at h2
        obtain ⟨hys, _⟩ := h2
        rw [← hxs, ← hys, List.drop_left,
          List.drop_append_of_le_length (Nat.le_of_lt hgt)]
      · -- no new events: second call can only return on timeout with ys = []
        have hmore : more = [] := by
          simp only [List.length_append, gt_iff_lt, not_lt] at hgt2
          exact List.eq_nil_of_length_eq_zero (by omega)
        subst hmore
        rw [if_neg hgt2] at h2
        cases t₂
        · simp at h2
        · rw [if_pos rfl] at h2
          simp only [Option.some.injEq, Prod.mk.injEq] at h2
          obtain ⟨hys, _⟩ := h2
          rw [← hxs, ← hys]
          simp
    · -- first call timed out: xs = [], i = k
      rw [if_neg hgt] at h1
      cases t₁
      · simp at h1
      · rw [if_pos rfl] at h1
        simp only [Option.some.injEq, Prod.mk.injEq] at h1
        obtain ⟨hxs, hi⟩ := h1
        subst hi
        by_cases hgt2 : (s.stream oid ++ more).length > k
        · rw [if_pos hgt2] at h2
          simp only [Option.some.injEq, Prod.mk.injEq] at h2
          obtain ⟨hys, _⟩ := h2
          rw [← hxs, ← hys]
          simp
        · rw [if_neg hgt2] at h2
          cases t₂
          · simp at h2
          · rw [if_pos rfl] at h2
            simp only [Option.some.injEq, Prod.mk.injEq] at h2
            obtain ⟨hys, _⟩ := h2
            rw [← hxs, ← hys, List.drop_eq_nil_of_le (by simpa using hgt2)]
            rfl

/-
  Object-level model for claim C9.  `get` in the source returns
  `list(self._data.get(order_id, []))`: the list itself is fresh, but the
  `OrderEvent` objects inside are the very objects held by the store, and the
  pydantic `OrderEvent` model (`store/event.py`) is mutable.  To make aliasing
  statable, events live in an explicit heap of cells and the store's streams
  hold cell addresses; in-place mutation of an event is a heap write.
-/

/-- Heap of `OrderEvent` objects; a cell address is an index. -/
structure EventHeap where
  cells : List OrderEvent

/-- Dereference of an event object. -/
def readCell (h : EventHeap) (a : Nat) : OrderEvent :=
  h.cells.getD a default

/-- In-place mutation of an event object (e.g. assigning to a field of the
mutable pydantic model). -/
def writeCell (h : EventHeap) (a : Nat) (e : OrderEvent) : EventHeap :=
  ⟨h.cells.set a e⟩

/-- Object-level `_data` dict of the store: streams hold object references. -/
structure RefStoreState where
  data : String → Option (List Nat)

/-- Stream of references currently held by the store. -/
def refStream (s : RefStoreState) (oid : String) : List Nat :=
  (s.data oid).getD []

/-- Translation of `get` at the object level: `list(...)` builds a fresh list
containing the same object references — a shallow copy. -/
def refGet (s : RefStoreState) (oid : String) : List Nat :=
  refStream s oid

/-- Event values a reader observes through a reference list. -/
def snapshotValues (h : EventHeap) (addrs : List Nat) : List OrderEvent :=
  addrs.map (readCell h)

/-- Event values a later `get` observes for an order id. -/
def getValues (h : EventHeap) (s : RefStoreState) (oid : String) :
    List OrderEvent :=
  snapshotValues h (refGet s oid)

/-- Concrete heap holding one event object. -/
def heap0 : EventHeap := ⟨[ev1]⟩

/-- Concrete store whose stream for `"O1"` references that object. -/
def refStore0 : RefStoreState := ⟨fun k => if k = "O1" then some [0] else none⟩

theorem readCell_writeCell_self (h : EventHeap) (a : Nat) (e : OrderEvent)
    (ha : a < h.cells.length) : readCell (writeCell h a e) a = e := by
  simp [readCell, writeCell, List.getD, List.getElem?_set_self ha]

theorem readCell_writeCell_ne (h : EventHeap) (a b : Nat) (e : OrderEvent)
    (hab : a ≠ b) : readCell (writeCell h a e) b = readCell h b := by
  simp [readCell, writeCell, List.getD, List.getElem?_set_ne hab]

/-- C9 as stated is false on the code: `get` is a shallow copy, so mutating
an `OrderEvent` object contained in the returned snapshot (here: the object
at the snapshot's only reference) changes what later `get` calls observe. -/
theorem C9_counterexample_shallow_copy :
    refGet refStore0 "O1" = [0] ∧
    getValues heap0 refStore0 "O1" = [ev1] ∧
    getValues (writeCell heap0 0 ev2) refStore0 "O1" = [ev2] ∧
    ev2 ≠ ev1 := by
  refine ⟨by decide, by decide, by decide, by decide⟩

/-- C9, amended: `get(order_id)` returns a fresh list holding the store's
current event stream, so two consecutive calls with no intervening mutation
return equal lists and reassigning or restructuring the returned list cannot
affect the store; but the copy is shallow — the `OrderEvent` objects are
shared with the store — so an in-place mutation of an event reachable from
the snapshot is observed by every later `get`: after writing object `a`, a
later `get` reads the written event at every position referencing `a` and
the unchanged events elsewhere. -/
theorem C9_get_shallow_snapshot_amended :
    (∀ (s : RefStoreState) (oid : String), refGet s oid = refStream s oid) ∧
    (∀ (h : EventHeap) (s : RefStoreState) (oid : String) (a : Nat)
       (e : OrderEvent), a < h.cells.length →
       getValues (writeCell h a e) s oid =
         (refGet s oid).map (fun b => if b = a then e else readCell h b)) ∧
    (∀ (h : EventHeap) (s : RefStoreState) (oid : String) (a : Nat)
       (e : OrderEvent), a ∈ refGet s oid → a < h.cells.length →
       e ∈ getValues (writeCell h a e) s oid) := by
  refine ⟨fun s oid => rfl, ?_, ?_⟩
  · intro h s oid a e ha
    unfold getValues snapshotValues
    refine List.map_congr_left (fun b _ => ?_)
    by_cases hb : b = a
    · subst hb
      rw [if_pos rfl, readCell_writeCell_self h b e ha]
    · rw [if_neg hb, readCell_writeCell_ne h a b e (fun hEq => hb hEq.symm)]
  · intro h s oid a e hmem ha
    unfold getValues snapshotValues
    exact List.mem_map.mpr ⟨a, hmem, readCell_writeCell_self h a e ha⟩

/-- Witness for C9 (amended) at the concrete heap and store: writing the
single shared object is observed by a later `get`. -/
theorem C9_get_shallow_snapshot_amended_witness :
    ((0 : Nat) < heap0.cells.length ∧
      getValues (writeCell heap0 0 ev2) refStore0 "O1" =
        (refGet refStore0 "O1").map
          (fun b => if b = 0 then ev2 else readCell heap0 b)) ∧
    ((0 : Nat) ∈ refGet refStore0 "O1" ∧
      ev2 ∈ getValues (writeCell heap0 0 ev2) refStore0 "O1") :=
  ⟨⟨by decide, C9_get_shallow_snapshot_amended.2.1 heap0 refStore0 "O1" 0 ev2
      (by decide)⟩,
   ⟨by decide, C9_get_shallow_snapshot_amended.2.2 heap0 refStore0 "O1" 0 ev2
      (by decide) (by decide)⟩⟩

/-
  Model of `_summarize_a2a_responses` (tools.py).  A reply is modelled after
  the per-response extraction of the source: the metadata name and the first
  part text (the source applies `.strip()` during extraction; here the raw
  text is carried and stripped at the same point of the loop).  Python string
  semantics are modelled on the ASCII fragment: `str.lower()` maps A–Z,
  `str.strip()` drops ASCII whitespace, and the `\b` of `re` matches at a
  transition from a non-word character (word characters being alphanumerics
  and the underscore).
-/

/-- ASCII whitespace stripped by Python `str.strip()`. -/
def isPyWs (c : Char) : Bool :=
  c = ' ' ∨ c = '\t' ∨ c = '\n' ∨ c = '\r' ∨ c = '\x0b' ∨ c = '\x0c'

/-- Both-ends whitespace strip on character lists. -/
def trimChars (l : List Char) : List Char :=
  ((l.dropWhile isPyWs).reverse.dropWhile isPyWs).reverse

/-- Python `str.strip()`. -/
def pyStrip (s : String) : String := String.mk (trimChars s.data)

/-- Python `str.lower()`. -/
def pyLower (s : String) : String := String.mk (s.data.map Char.toLower)

/-- True iff `pat` occurs at position `i` of `cs`. -/
def matchesAt (cs pat : List Char) (i : Nat) : Bool :=
  pat.isPrefixOf (cs.drop i)

/-- Substring containment (Python `pat in cs`). -/
def containsSub (cs pat : List Char) : Bool :=
  (List.range (cs.length + 1)).any (fun i => matchesAt cs pat i)

/-- The skip test of the loop: `"idle" in text.lower()`. -/
def containsIdle (t : String) : Bool :=
  containsSub (pyLower t).data ("idle".data)

/-- Word characters of the regex `\b` boundary (ASCII fragment). -/
def isWordChar (c : Char) : Bool := c.isAlphanum || c = '_'

/-- Whole-word occurrence of `delivered` at position `i` of the lowered
text (`re.search` with `IGNORECASE` lowers both sides; `delivered` has 9
characters). -/
def wholeWordDeliveredAt (cs : List Char) (i : Nat) : Bool :=
  matchesAt cs ("delivered".data) i &&
  (decide (i = 0) || !isWordChar (cs.getD (i - 1) ' ')) &&
  (decide (cs.length ≤ i + 9) || !isWordChar (cs.getD (i + 9) ' '))

/-- The delivered test of the loop: `re.search(r"\bdelivered\b", text, re.IGNORECASE)`. -/
def hasDeliveredWord (t : String) : Bool :=
  (List.range ((pyLower t).data.length + 1)).any
    (fun i => wholeWordDeliveredAt (pyLower t).data i)

/-- One A2A reply, reduced to the fields the summarizer reads: the metadata
`name` and the first non-empty part text. -/
structure Reply where
  name : String
  text : String
deriving DecidableEq

/-- A reply the loop skips: empty after strip, or containing `idle`. -/
def isSkipped (r : Reply) : Bool :=
  pyStrip r.text = "" || containsIdle (pyStrip r.text)

/-- A reply that becomes its own delivered segment. -/
def isDeliveredReply (r : Reply) : Bool :=
  !isSkipped r && hasDeliveredWord (pyStrip r.text)

/-- A reply grouped under its sender. -/
def isStatusReply (r : Reply) : Bool :=
  !isSkipped r && !hasDeliveredWord (pyStrip r.text)

/-- Loop state of `_summarize_a2a_responses`. -/
structure AggState where
  agent_first_order : List String
  agent_statuses : List (String × List String)
  delivered_segments : List String
  delivered_seen : Bool

/-- Dict read `agent_statuses.get(name)` (insertion-ordered association
list). -/
def lookupAgent (l : List (String × List String)) (n : String) :
    Option (List String) :=
  (l.find? (fun p => p.1 = n)).map Prod.snd

/-- Dict write to an existing key, preserving insertion order. -/
def setAgent (l : List (String × List String)) (n : String)
    (v : List String) : List (String × List String) :=
  l.map (fun p => if p.1 = n then (n, v) else p)

/-- Dict membership `name in agent_statuses`. -/
def hasAgent (l : List (String × List String)) (n : String) : Bool :=
  l.any (fun p => p.1 = n)

/-- One iteration of the summarizer loop (`isSkipped r` abbreviates the
guard `not text or "idle" in text.lower()` on the stripped text). -/
def stepReply (st : AggState) (r : Reply) : AggState :=
  let text := pyStrip r.text
  if isSkipped r then st
  else if hasDeliveredWord text then
    { st with
      delivered_seen := true,
      delivered_segments := st.delivered_segments ++ [r.name ++ ": " ++ text] }
  else
    let st1 :=
      if hasAgent st.agent_statuses r.name then st
      else { st with
             agent_statuses := st.agent_statuses ++ [(r.name, [])],
             agent_first_order := st.agent_first_order ++ [r.name] }
    let cur := (lookupAgent st1.agent_statuses r.name).getD []
    if cur = [] ∨ cur.getLast? ≠ some text then
      { st1 with
        agent_statuses := setAgent st1.agent_statuses r.name (cur ++ [text]) }
    else st1

/-- Loop state before the first iteration. -/
def initAgg : AggState := ⟨[], [], [], false⟩

/-- The whole response loop. -/
def aggregate (rs : List Reply) : AggState := rs.foldl stepReply initAgg

/-- Python `sep.join(l)`. -/
def joinSep (sep : String) : List String → String
  | [] => ""
  | [x] => x
  | x :: y :: xs => x ++ sep ++ joinSep sep (y :: xs)

/-- Summary construction after the loop. -/
def renderAgg (st : AggState) : String :=
  if st.agent_first_order = [] ∧ st.delivered_segments = [] then
    "No non-idle status updates received."
  else
    let segments :=
      (st.agent_first_order.filterMap (fun agent =>
        match lookupAgent st.agent_statuses agent with
        | some texts =>
            if texts ≠ [] then some (agent ++ ": " ++ joinSep ", " texts)
            else none
        | none => none)) ++ st.delivered_segments
    if st.delivered_seen then
      "Order status updates: " ++ joinSep " | " segments ++ " (final)"
    else
      "Order status updates: " ++ joinSep " | " segments

/-- Translation of `_summarize_a2a_responses`. -/
def summarize_a2a_responses (rs : List Reply) : String :=
  renderAgg (aggregate rs)

/-
  Specification-side (compositional) description of the aggregation, written
  from the claim: delivered segments in arrival order, senders in first-seen
  order, per-sender texts with immediately repeated duplicates collapsed.
-/

/-- Delivered segments in arrival order. -/
def deliveredSegsSpec (rs : List Reply) : List String :=
  (rs.filter isDeliveredReply).map (fun r => r.name ++ ": " ++ pyStrip r.text)

/-- Sender of each grouped reply, in arrival order (with repetitions). -/
def statusNames (rs : List Reply) : List String :=
  (rs.filter isStatusReply).map (fun r => r.name)

/-- Stripped texts one sender contributed, in arrival order. -/
def textsOf (n : String) (rs : List Reply) : List String :=
  ((rs.filter isStatusReply).filter (fun r => r.name = n)).map
    (fun r => pyStrip r.text)

/-- First-seen deduplication, given already-seen keys. -/
def newNames (keys : List String) : List String → List String
  | [] => []
  | n :: ns =>
      if n ∈ keys then newNames keys ns else n :: newNames (n :: keys) ns

/-- Adjacent-duplicate collapse, given the previously kept element. -/
def collapseFrom (last : Option String) : List String → List String
  | [] => []
  | t :: ts =>
      if last = some t then collapseFrom last ts
      else t :: collapseFrom (some t) ts

/-- Adjacent-duplicate collapse of a list. -/
def collapseAdj (l : List String) : List String := collapseFrom none l

/-- Claim-side description of the summary. -/
def specSummarize (rs : List Reply) : String :=
  let senders := newNames [] (statusNames rs)
  let segments :=
    senders.map (fun n => n ++ ": " ++ joinSep ", " (collapseAdj (textsOf n rs)))
      ++ deliveredSegsSpec rs
  if segments = [] then "No non-idle status updates received."
  else if rs.any isDeliveredReply then
    "Order status updates: " ++ joinSep " | " segments ++ " (final)"
  else
    "Order status updates: " ++ joinSep " | " segments

/-- Scenario D of the spec. -/
def scenarioD : List Reply :=
  [⟨"Farm", "IDLE"⟩,
   ⟨"Farm", "HANDOVER_TO_SHIPPER | Farm -> Shipper: m1"⟩,
   ⟨"Farm", "HANDOVER_TO_SHIPPER | Farm -> Shipper: m1"⟩,
   ⟨"Shipper", "DELIVERED | Shipper -> Supervisor: done"⟩]

/-- The effect of the într-sender collapse in one loop iteration. -/
def appendCollapse (cur : List String) (t : String) : List String :=
  if cur.getLast? = some t then cur else cur ++ [t]

theorem lookupAgent_cons (p : String × List String)
    (rest : List (String × List String)) (n : String) :
    lookupAgent (p :: rest) n =
      if p.1 = n then some p.2 else lookupAgent rest n := by
  by_cases h : p.1 = n <;>
    simp [lookupAgent, List.find?_cons_of_pos, List.find?_cons_of_neg, h]

theorem hasAgent_cons (p : String × List String)
    (rest : List (String × List String)) (n : String) :
    hasAgent (p :: rest) n = (p.1 = n || hasAgent rest n) := by
  simp [hasAgent]

theorem lookupAgent_isSome (l : List (String × List String)) (n : String) :
    (lookupAgent l n).isSome = hasAgent l n := by
  induction l with
  | nil => rfl
  | cons p rest ih =>
      rw [lookupAgent_cons, hasAgent_cons]
      by_cases h : p.1 = n <;> simp [h, ih]

theorem lookupAgent_setAgent_self (l : List (String × List String))
    (n : String) (v : List String) (h : hasAgent l n = true) :
    lookupAgent (setAgent l n v) n = some v := by
  induction l with
  | nil => simp [hasAgent] at h
  | cons p rest ih =>
      rw [hasAgent_cons] at h
      by_cases hp : p.1 = n
      · simp [setAgent, lookupAgent_cons, hp]
      · simp only [setAgent, List.map_cons, if_neg hp]
        rw [lookupAgent_cons, if_neg hp]
        simp [hp] at h
        exact ih h

theorem lookupAgent_setAgent_ne (l : List (String × List String))
    (n m : String) (v : List String) (h : m ≠ n) :
    lookupAgent (setAgent l n v) m = lookupAgent l m := by
  induction l with
  | nil => rfl
  | cons p rest ih =>
      by_cases hp : p.1 = n
      · simp only [setAgent, List.map_cons, if_pos hp]
        rw [lookupAgent_cons, lookupAgent_cons, if_neg (fun hEq => h hEq.symm),
          if_neg (by rw [hp]; exact fun hEq => h hEq.symm)]
        exact ih
      · simp only [setAgent, List.map_cons, if_neg hp]
        rw [lookupAgent_cons, lookupAgent_cons]
        by_cases hm : p.1 = m
        · simp [hm]
        · simp only [if_neg hm]
          exact ih

theorem map_fst_setAgent (l : List (String × List String)) (n : String)
    (v : List String) :
    (setAgent l n v).map Prod.fst = l.map Prod.fst := by
  unfold setAgent
  rw [List.map_map]
  refine List.map_congr_left (fun p _ => ?_)
  by_cases hp : p.1 = n
  · show (if p.1 = n then (n, v) else p).1 = p.1
    rw [if_pos hp]
    exact hp.symm
  · show (if p.1 = n then (n, v) else p).1 = p.1
    rw [if_neg hp]

theorem lookupAgent_append_self (l : List (String × List String))
    (n : String) (v : List String) (h : hasAgent l n = false) :
    lookupAgent (l ++ [(n, v)]) n = some v := by
  induction l with
  | nil => simp [lookupAgent_cons]
  | cons p rest ih =>
      rw [hasAgent_cons] at h
      simp only [Bool.or_eq_false_iff] at h
      rw [List.cons_append, lookupAgent_cons, if_neg (by simpa using h.1)]
      exact ih h.2

theorem lookupAgent_append_ne (l : List (String × List String))
    (n m : String) (v : List String) (h : m ≠ n) :
    lookupAgent (l ++ [(n, v)]) m = lookupAgent l m := by
  induction l with
  | nil =>
      rw [List.nil_append, lookupAgent_cons,
        if_neg (fun hEq => h hEq.symm)]
  | cons p rest ih =>
      rw [List.cons_append, lookupAgent_cons, lookupAgent_cons]
      by_cases hm : p.1 = m
      · simp [hm]
      · simp only [if_neg hm]
        exact ih

theorem hasAgent_mem_map_fst (l : List (String × List String)) (n : String) :
    hasAgent l n = true ↔ n ∈ l.map Prod.fst := by
  induction l with
  | nil => simp [hasAgent]
  | cons p rest ih =>
      rw [hasAgent_cons, List.map_cons]
      simp only [Bool.or_eq_true, decide_eq_true_eq, List.mem_cons, ih]
      constructor
      · rintro (h | h)
        · exact Or.inl h.symm
        · exact Or.inr h
      · rintro (h | h)
        · exact Or.inl h.symm
        · exact Or.inr h

theorem hasAgent_false_lookup_none (l : List (String × List String))
    (n : String) : hasAgent l n = false ↔ lookupAgent l n = none := by
  rw [← lookupAgent_isSome]
  cases lookupAgent l n <;> simp

theorem stepReply_skip (st : AggState) (r : Reply)
    (h : isSkipped r = true) : stepReply st r = st := by
  simp only [stepReply]
  rw [if_pos h]

theorem stepReply_delivered (st : AggState) (r : Reply)
    (h : isDeliveredReply r = true) :
    stepReply st r =
      { st with
        delivered_seen := true,
        delivered_segments :=
          st.delivered_segments ++ [r.name ++ ": " ++ pyStrip r.text] } := by
  simp only [isDeliveredReply, Bool.and_eq_true, Bool.not_eq_true'] at h
  simp only [stepReply]
  rw [if_neg (by simp [h.1]), if_pos h.2]

/-- Effect of the status branch of the loop on the state, as a standalone
function of the sender name and stripped text. -/
def statusUpdate (st : AggState) (n t : String) : AggState :=
  if hasAgent st.agent_statuses n then
    { st with agent_statuses :=
        if ((lookupAgent st.agent_statuses n).getD []).getLast? = some t then st.agent_statuses
        else setAgent st.agent_statuses n (((lookupAgent st.agent_statuses n).getD []) ++ [t]) }
  else
    { st with
      agent_first_order := st.agent_first_order ++ [n],
      agent_statuses := setAgent (st.agent_statuses ++ [(n, [])]) n [t] }

theorem stepReply_status (st : AggState) (r : Reply)
    (h : isStatusReply r = true) :
    stepReply st r = statusUpdate st r.name (pyStrip r.text) := by
  simp only [isStatusReply, Bool.and_eq_true, Bool.not_eq_true'] at h
  simp only [stepReply, statusUpdate]
  rw [if_neg (by simp [h.1]), if_neg (by simp [h.2])]
  by_cases hk : hasAgent st.agent_statuses r.name = true
  · rw [if_pos hk, if_pos hk]
    by_cases hlast : ((lookupAgent st.agent_statuses r.name).getD
        []).getLast? = some (pyStrip r.text)
    · rw [if_pos hlast]
      have hcur : ¬ ((lookupAgent st.agent_statuses r.name).getD [] = [] ∨
          ((lookupAgent st.agent_statuses r.name).getD []).getLast? ≠
            some (pyStrip r.text)) := by
        push_neg
        refine ⟨fun hnil => ?_, hlast⟩
        rw [hnil] at hlast
        simp at hlast
      rw [if_neg hcur]
    · rw [if_neg hlast,
        if_pos (Or.inr hlast)]
  · rw [if_neg hk, if_neg hk]
    have hlook : lookupAgent (st.agent_statuses ++ [(r.name, [])]) r.name =
        some [] :=
      lookupAgent_append_self st.agent_statuses r.name []
        (by simpa using hk)
    rw [hlook]
    simp

theorem hasAgent_append_self (l : List (String × List String)) (n : String)
    (v : List String) : hasAgent (l ++ [(n, v)]) n = true := by
  simp [hasAgent]

theorem statusUpdate_seen (st : AggState) (n t : String) :
    (statusUpdate st n t).delivered_seen = st.delivered_seen := by
  unfold statusUpdate
  split_ifs <;> rfl

theorem statusUpdate_delivered (st : AggState) (n t : String) :
    (statusUpdate st n t).delivered_segments = st.delivered_segments := by
  unfold statusUpdate
  split_ifs <;> rfl

theorem statusUpdate_firstOrder (st : AggState) (n t : String) :
    (statusUpdate st n t).agent_first_order =
      if hasAgent st.agent_statuses n then st.agent_first_order
      else st.agent_first_order ++ [n] := by
  unfold statusUpdate
  split_ifs <;> rfl

theorem statusUpdate_map_fst (st : AggState) (n t : String) :
    (statusUpdate st n t).agent_statuses.map Prod.fst =
      if hasAgent st.agent_statuses n then st.agent_statuses.map Prod.fst
      else st.agent_statuses.map Prod.fst ++ [n] := by
  unfold statusUpdate
  by_cases hk : hasAgent st.agent_statuses n = true
  · rw [if_pos hk, if_pos hk]
    split_ifs
    · rfl
    · exact map_fst_setAgent _ n _
  · rw [if_neg hk, if_neg hk]
    show (setAgent (st.agent_statuses ++ [(n, [])]) n [t]).map Prod.fst = _
    rw [map_fst_setAgent, List.map_append]
    rfl

theorem statusUpdate_lookup_self (st : AggState) (n t : String) :
    lookupAgent (statusUpdate st n t).agent_statuses n =
      some (appendCollapse ((lookupAgent st.agent_statuses n).getD []) t) := by
  unfold statusUpdate appendCollapse
  by_cases hk : hasAgent st.agent_statuses n = true
  · rw [if_pos hk]
    have hsome : lookupAgent st.agent_statuses n =
        some ((lookupAgent st.agent_statuses n).getD []) := by
      have := lookupAgent_isSome st.agent_statuses n
      rw [hk] at this
      cases hcase : lookupAgent st.agent_statuses n
      · rw [hcase] at this; simp at this
      · simp
    by_cases hlast : ((lookupAgent st.agent_statuses n).getD []).getLast? =
        some t
    · rw [if_pos hlast, if_pos hlast]
      exact hsome
    · rw [if_neg hlast, if_neg hlast]
      show lookupAgent (setAgent st.agent_statuses n _) n = _
      rw [lookupAgent_setAgent_self _ _ _ hk]
  · rw [if_neg hk]
    have hnone : lookupAgent st.agent_statuses n = none :=
      (hasAgent_false_lookup_none _ _).mp (by simpa using hk)
    rw [hnone]
    simp only [Option.getD_none, List.getLast?_nil]
    rw [if_neg (by simp)]
    show lookupAgent (setAgent (st.agent_statuses ++ [(n, [])]) n [t]) n = _
    rw [lookupAgent_setAgent_self _ _ _ (hasAgent_append_self _ n [])]
    rfl

theorem statusUpdate_lookup_ne (st : AggState) (n t m : String)
    (hm : m ≠ n) :
    lookupAgent (statusUpdate st n t).agent_statuses m =
      lookupAgent st.agent_statuses m := by
  unfold statusUpdate
  by_cases hk : hasAgent st.agent_statuses n = true
  · rw [if_pos hk]
    split_ifs
    · rfl
    · exact lookupAgent_setAgent_ne _ n m _ hm
  · rw [if_neg hk]
    show lookupAgent (setAgent (st.agent_statuses ++ [(n, [])]) n [t]) m = _
    rw [lookupAgent_setAgent_ne _ n m _ hm, lookupAgent_append_ne _ n m _ hm]

theorem class_skip (r : Reply) (hs : isSkipped r = true) :
    isDeliveredReply r = false ∧ isStatusReply r = false := by
  simp [isDeliveredReply, isStatusReply, hs]

theorem class_delivered (r : Reply) (hs : isSkipped r = false)
    (hd : hasDeliveredWord (pyStrip r.text) = true) :
    isDeliveredReply r = true ∧ isStatusReply r = false := by
  simp [isDeliveredReply, isStatusReply, hs, hd]

theorem class_status (r : Reply) (hs : isSkipped r = false)
    (hd : hasDeliveredWord (pyStrip r.text) = false) :
    isDeliveredReply r = false ∧ isStatusReply r = true := by
  simp [isDeliveredReply, isStatusReply, hs, hd]

theorem deliveredSegsSpec_cons (r : Reply) (rest : List Reply) :
    deliveredSegsSpec (r :: rest) =
      (if isDeliveredReply r = true then [r.name ++ ": " ++ pyStrip r.text]
       else []) ++ deliveredSegsSpec rest := by
  by_cases h : isDeliveredReply r = true <;>
    simp [deliveredSegsSpec, List.filter_cons, h]

theorem statusNames_cons (r : Reply) (rest : List Reply) :
    statusNames (r :: rest) =
      (if isStatusReply r = true then [r.name] else []) ++ statusNames rest := by
  by_cases h : isStatusReply r = true <;>
    simp [statusNames, List.filter_cons, h]

theorem textsOf_cons (n : String) (r : Reply) (rest : List Reply) :
    textsOf n (r :: rest) =
      (if isStatusReply r = true ∧ r.name = n then [pyStrip r.text] else [])
        ++ textsOf n rest := by
  by_cases h : isStatusReply r = true
  · by_cases hn : r.name = n <;>
      simp [textsOf, List.filter_cons, h, hn]
  · simp [textsOf, List.filter_cons, h]

theorem newNames_cons (keys : List String) (n : String) (ns : List String) :
    newNames keys (n :: ns) =
      if n ∈ keys then newNames keys ns else n :: newNames (n :: keys) ns :=
  rfl

theorem statusNames_cons_status (r : Reply) (rest : List Reply)
    (h : isStatusReply r = true) :
    statusNames (r :: rest) = r.name :: statusNames rest := by
  rw [statusNames_cons, if_pos h, List.singleton_append]

theorem statusNames_cons_nonstatus (r : Reply) (rest : List Reply)
    (h : isStatusReply r = false) :
    statusNames (r :: rest) = statusNames rest := by
  rw [statusNames_cons, if_neg (by simp [h]), List.nil_append]

theorem textsOf_cons_self (r : Reply) (rest : List Reply)
    (h : isStatusReply r = true) :
    textsOf r.name (r :: rest) = pyStrip r.text :: textsOf r.name rest := by
  rw [textsOf_cons, if_pos ⟨h, rfl⟩, List.singleton_append]

theorem textsOf_cons_ne (n : String) (r : Reply) (rest : List Reply)
    (hn : r.name ≠ n) :
    textsOf n (r :: rest) = textsOf n rest := by
  rw [textsOf_cons, if_neg (fun hc => hn hc.2), List.nil_append]

theorem textsOf_cons_nonstatus (n : String) (r : Reply) (rest : List Reply)
    (h : isStatusReply r = false) :
    textsOf n (r :: rest) = textsOf n rest := by
  rw [textsOf_cons, if_neg (by simp [h]), List.nil_append]

theorem foldl_seen (rs : List Reply) :
    ∀ st : AggState, (rs.foldl stepReply st).delivered_seen =
      (st.delivered_seen || rs.any isDeliveredReply) := by
  induction rs with
  | nil => intro st; simp
  | cons r rest ih =>
      intro st
      rw [List.foldl_cons, ih, List.any_cons]
      by_cases hs : isSkipped r = true
      · rw [stepReply_skip st r hs, (class_skip r hs).1]
        simp
      · have hs' : isSkipped r = false := by simpa using hs
        by_cases hd : hasDeliveredWord (pyStrip r.text) = true
        · rw [stepReply_delivered st r (class_delivered r hs' hd).1,
            (class_delivered r hs' hd).1]
          simp
        · have hd' : hasDeliveredWord (pyStrip r.text) = false := by
            simpa using hd
          rw [stepReply_status st r (class_status r hs' hd').2,
            statusUpdate_seen, (class_status r hs' hd').1]
          simp

theorem foldl_delivered (rs : List Reply) :
    ∀ st : AggState, (rs.foldl stepReply st).delivered_segments =
      st.delivered_segments ++ deliveredSegsSpec rs := by
  induction rs with
  | nil => intro st; simp [deliveredSegsSpec]
  | cons r rest ih =>
      intro st
      rw [List.foldl_cons, ih, deliveredSegsSpec_cons]
      by_cases hs : isSkipped r = true
      · rw [stepReply_skip st r hs, (class_skip r hs).1]
        simp
      · have hs' : isSkipped r = false := by simpa using hs
        by_cases hd : hasDeliveredWord (pyStrip r.text) = true
        · rw [stepReply_delivered st r (class_delivered r hs' hd).1,
            (class_delivered r hs' hd).1]
          simp
        · have hd' : hasDeliveredWord (pyStrip r.text) = false := by
            simpa using hd
          rw [stepReply_status st r (class_status r hs' hd').2,
            statusUpdate_delivered, (class_status r hs' hd').1]
          simp

theorem newNames_congr (k₁ k₂ : List String)
    (h : ∀ x, x ∈ k₁ ↔ x ∈ k₂) :
    ∀ l, newNames k₁ l = newNames k₂ l := by
  intro l
  induction l generalizing k₁ k₂ with
  | nil => rfl
  | cons n ns ih =>
      by_cases hn : n ∈ k₁
      · rw [newNames, newNames, if_pos hn, if_pos ((h n).mp hn)]
        exact ih k₁ k₂ h
      · rw [newNames, newNames, if_neg hn,
          if_neg (fun hc => hn ((h n).mpr hc))]
        refine congrArg (n :: ·) (ih (n :: k₁) (n :: k₂) (fun x => ?_))
        simp [h x]

theorem foldl_names (rs : List Reply) :
    ∀ st : AggState,
      (rs.foldl stepReply st).agent_first_order =
        st.agent_first_order ++
          newNames (st.agent_statuses.map Prod.fst) (statusNames rs) ∧
      (rs.foldl stepReply st).agent_statuses.map Prod.fst =
        st.agent_statuses.map Prod.fst ++
          newNames (st.agent_statuses.map Prod.fst) (statusNames rs) := by
  induction rs with
  | nil => intro st; simp [statusNames, newNames]
  | cons r rest ih =>
      intro st
      rw [List.foldl_cons]
      by_cases hs : isSkipped r = true
      · rw [stepReply_skip st r hs,
          statusNames_cons_nonstatus r rest (class_skip r hs).2]
        exact ih st
      · have hs' : isSkipped r = false := by simpa using hs
        by_cases hd : hasDeliveredWord (pyStrip r.text) = true
        · rw [stepReply_delivered st r (class_delivered r hs' hd).1,
            statusNames_cons_nonstatus r rest (class_delivered r hs' hd).2]
          simpa using ih _
        · have hd' : hasDeliveredWord (pyStrip r.text) = false := by
            simpa using hd
          have hst := (class_status r hs' hd').2
          rw [stepReply_status st r hst, statusNames_cons_status r rest hst]
          obtain ⟨ihf, ihk⟩ := ih (statusUpdate st r.name (pyStrip r.text))
          rw [ihf, ihk, statusUpdate_firstOrder, statusUpdate_map_fst,
            newNames_cons]
          by_cases hk : hasAgent st.agent_statuses r.name = true
          · have hmem : r.name ∈ st.agent_statuses.map Prod.fst :=
              (hasAgent_mem_map_fst _ _).mp hk
            rw [if_pos hk, if_pos hk, if_pos hmem]
            exact ⟨rfl, rfl⟩
          · have hmem : r.name ∉ st.agent_statuses.map Prod.fst :=
              fun hc => hk ((hasAgent_mem_map_fst _ _).mpr hc)
            rw [if_neg hk, if_neg hk, if_neg hmem]
            have hcongr : newNames (st.agent_statuses.map Prod.fst ++ [r.name])
                  (statusNames rest) =
                newNames (r.name :: st.agent_statuses.map Prod.fst)
                  (statusNames rest) :=
              newNames_congr _ _ (fun x => by simp [or_comm]) _
            rw [hcongr]
            constructor
            · rw [List.append_assoc]
              rfl
            · rw [List.append_assoc]
              rfl

theorem foldl_lookup (rs : List Reply) :
    ∀ (st : AggState) (n : String),
      lookupAgent (rs.foldl stepReply st).agent_statuses n =
        match lookupAgent st.agent_statuses n with
        | some cur => some (cur ++ collapseFrom cur.getLast? (textsOf n rs))
        | none =>
            if n ∈ statusNames rs then
              some (collapseFrom none (textsOf n rs))
            else none := by
  induction rs with
  | nil =>
      intro st n
      cases h : lookupAgent st.agent_statuses n <;>
        simp [h, textsOf, statusNames, collapseFrom]
  | cons r rest ih =>
      intro st n
      rw [List.foldl_cons]
      by_cases hs : isSkipped r = true
      · rw [stepReply_skip st r hs,
          statusNames_cons_nonstatus r rest (class_skip r hs).2,
          textsOf_cons_nonstatus n r rest (class_skip r hs).2]
        exact ih st n
      · have hs' : isSkipped r = false := by simpa using hs
        by_cases hd : hasDeliveredWord (pyStrip r.text) = true
        · rw [stepReply_delivered st r (class_delivered r hs' hd).1,
            statusNames_cons_nonstatus r rest (class_delivered r hs' hd).2,
            textsOf_cons_nonstatus n r rest (class_delivered r hs' hd).2]
          exact ih _ n
        · have hd' : hasDeliveredWord (pyStrip r.text) = false := by
            simpa using hd
          have hst := (class_status r hs' hd').2
          rw [stepReply_status st r hst,
            statusNames_cons_status r rest hst,
            ih (statusUpdate st r.name (pyStrip r.text)) n]
          by_cases hn : r.name = n
          · subst hn
            rw [textsOf_cons_self r rest hst, statusUpdate_lookup_self]
            rw [if_pos (List.mem_cons_self r.name _)]
            cases hcur : lookupAgent st.agent_statuses r.name with
            | none =>
                simp only [Option.getD_none]
                rw [show appendCollapse [] (pyStrip r.text) =
                    [pyStrip r.text] by simp [appendCollapse]]
                rw [show collapseFrom none
                      (pyStrip r.text :: textsOf r.name rest) =
                    pyStrip r.text ::
                      collapseFrom (some (pyStrip r.text))
                        (textsOf r.name rest) by
                  rw [collapseFrom, if_neg (by simp)]]
                rfl
            | some cur =>
                simp only [Option.getD_some]
                by_cases hlast : cur.getLast? = some (pyStrip r.text)
                · rw [show appendCollapse cur (pyStrip r.text) = cur by
                    simp [appendCollapse, hlast]]
                  rw [show collapseFrom cur.getLast?
                        (pyStrip r.text :: textsOf r.name rest) =
                      collapseFrom cur.getLast? (textsOf r.name rest) by
                    rw [collapseFrom, if_pos hlast, hlast]]
                · rw [show appendCollapse cur (pyStrip r.text) =
                      cur ++ [pyStrip r.text] by
                    simp [appendCollapse, hlast]]
                  rw [List.getLast?_concat]
                  rw [show collapseFrom cur.getLast?
                        (pyStrip r.text :: textsOf r.name rest) =
                      pyStrip r.text ::
                        collapseFrom (some (pyStrip r.text))
                          (textsOf r.name rest) by
                    rw [collapseFrom, if_neg hlast]]
                  rw [← List.append_cons]
          · rw [textsOf_cons_ne n r rest hn,
              statusUpdate_lookup_ne st r.name (pyStrip r.text) n
                (fun hc => hn hc.symm)]
            have hne : ¬ n = r.name := fun hc => hn hc.symm
            cases hcur : lookupAgent st.agent_statuses n
            · simp [hne]
            · simp

theorem newNames_sub (n : String) :
    ∀ (l keys : List String), n ∈ newNames keys l → n ∈ l := by
  intro l
  induction l with
  | nil => intro keys h; exact absurd h (by simp [newNames])
  | cons m ms ih =>
      intro keys h
      rw [newNames_cons] at h
      by_cases hm : m ∈ keys
      · rw [if_pos hm] at h
        exact List.mem_cons_of_mem m (ih keys h)
      · rw [if_neg hm] at h
        rcases List.mem_cons.mp h with h | h
        · exact h ▸ List.mem_cons_self n ms
        · exact List.mem_cons_of_mem m (ih (m :: keys) h)

theorem textsOf_ne_nil (n : String) (rs : List Reply)
    (h : n ∈ statusNames rs) : textsOf n rs ≠ [] := by
  unfold statusNames at h
  obtain ⟨r, hr, hname⟩ := List.mem_map.mp h
  unfold textsOf
  have hrmem : r ∈ (rs.filter isStatusReply).filter
      (fun x => x.name = n) :=
    List.mem_filter.mpr ⟨hr, by simp [hname]⟩
  exact fun hc => absurd (List.mem_map_of_mem (fun x => pyStrip x.text) hrmem)
    (by rw [hc]; simp)

theorem collapseAdj_ne_nil (l : List String) (h : l ≠ []) :
    collapseAdj l ≠ [] := by
  cases l with
  | nil => exact absurd rfl h
  | cons t ts =>
      unfold collapseAdj collapseFrom
      rw [if_neg (by simp)]
      simp

theorem filterMap_eq_map_of_some {α β : Type} (f : α → Option β) (g : α → β)
    (l : List α) (h : ∀ a ∈ l, f a = some (g a)) :
    l.filterMap f = l.map g := by
  induction l with
  | nil => rfl
  | cons a rest ih =>
      rw [List.filterMap_cons, h a (List.mem_cons_self a rest), List.map_cons,
        ih (fun b hb => h b (List.mem_cons_of_mem a hb))]

/-- Equivalence of the source loop with the compositional description: the
backbone of claims C3 and C4. -/
theorem summarize_eq_spec (rs : List Reply) :
    summarize_a2a_responses rs = specSummarize rs := by
  have h1 : (aggregate rs).delivered_seen = rs.any isDeliveredReply := by
    have := foldl_seen rs initAgg
    simpa [initAgg, aggregate] using this
  have h2 : (aggregate rs).delivered_segments = deliveredSegsSpec rs := by
    have := foldl_delivered rs initAgg
    simpa [initAgg, aggregate] using this
  have h3 : (aggregate rs).agent_first_order =
      newNames [] (statusNames rs) := by
    have := (foldl_names rs initAgg).1
    simpa [initAgg, aggregate] using this
  have h4 : ∀ n, lookupAgent (aggregate rs).agent_statuses n =
      if n ∈ statusNames rs then some (collapseAdj (textsOf n rs))
      else none := by
    intro n
    have := foldl_lookup rs initAgg n
    simpa [initAgg, aggregate, lookupAgent, collapseAdj] using this
  unfold summarize_a2a_responses renderAgg specSummarize
  by_cases hempty : (aggregate rs).agent_first_order = [] ∧
      (aggregate rs).delivered_segments = []
  · rw [if_pos hempty]
    have hsend : newNames [] (statusNames rs) = [] := h3 ▸ hempty.1
    have hdel : deliveredSegsSpec rs = [] := h2 ▸ hempty.2
    rw [hsend, hdel]
    simp
  · rw [if_neg hempty]
    have hsegne : ¬ ((newNames [] (statusNames rs)).map
          (fun n => n ++ ": " ++ joinSep ", " (collapseAdj (textsOf n rs)))
        ++ deliveredSegsSpec rs = []) := by
      intro hc
      rcases List.append_eq_nil.mp hc with ⟨hmap, hdel⟩
      exact hempty ⟨h3.trans (List.map_eq_nil_iff.mp hmap),
        h2.trans hdel⟩
    rw [if_neg hsegne]
    have hfmap : (aggregate rs).agent_first_order.filterMap (fun agent =>
        match lookupAgent (aggregate rs).agent_statuses agent with
        | some texts =>
            if texts ≠ [] then some (agent ++ ": " ++ joinSep ", " texts)
            else none
        | none => none) =
        (newNames [] (statusNames rs)).map
          (fun n => n ++ ": " ++ joinSep ", " (collapseAdj (textsOf n rs))) := by
      rw [h3]
      refine filterMap_eq_map_of_some _ _ _ (fun agent hagent => ?_)
      have hmem : agent ∈ statusNames rs := newNames_sub agent _ [] hagent
      rw [h4 agent, if_pos hmem]
      show (if collapseAdj (textsOf agent rs) ≠ [] then _ else _) = _
      rw [if_pos (collapseAdj_ne_nil _ (textsOf_ne_nil agent rs hmem))]
    rw [hfmap, h1, h2]

/-- C3: for every reply list, the aggregation drops replies containing
`idle` (case-insensitive), turns each whole-word `delivered` reply into its
own ordered segment `<sender>: <text>`, and returns
`"Order status updates: "` plus per-sender segments in first-seen sender
order joined by `" | "`, followed by the delivered segments in arrival
order, with `" (final)"` appended iff some delivered reply was seen; if no
segments survive it returns `"No non-idle status updates received."` —
stated as equality with the compositional claim-side description
`specSummarize`, plus Scenario D as a concrete instance. -/
theorem C3_summarize_characterization :
    (∀ rs : List Reply, summarize_a2a_responses rs = specSummarize rs) ∧
    summarize_a2a_responses scenarioD =
      "Order status updates: Farm: HANDOVER_TO_SHIPPER | Farm -> Shipper: m1 | Shipper: DELIVERED | Shipper -> Supervisor: done (final)" :=
  ⟨summarize_eq_spec, by decide⟩

theorem newNames_dup (n : String) :
    ∀ (xs keys ys : List String),
      newNames keys (xs ++ n :: n :: ys) = newNames keys (xs ++ n :: ys) := by
  intro xs
  induction xs with
  | nil =>
      intro keys ys
      rw [List.nil_append, List.nil_append]
      by_cases h : n ∈ keys
      · simp only [newNames_cons, if_pos h]
      · simp only [newNames_cons, if_neg h,
          if_pos (List.mem_cons_self n keys)]
  | cons m ms ih =>
      intro keys ys
      rw [List.cons_append, List.cons_append]
      by_cases h : m ∈ keys
      · simp only [newNames_cons, if_pos h]
        exact ih keys ys
      · simp only [newNames_cons, if_neg h]
        exact congrArg (m :: ·) (ih (m :: keys) ys)

theorem collapseFrom_dup (t : String) :
    ∀ (xs : List String) (last : Option String) (ys : List String),
      collapseFrom last (xs ++ t :: t :: ys) =
        collapseFrom last (xs ++ t :: ys) := by
  intro xs
  induction xs with
  | nil =>
      intro last ys
      rw [List.nil_append, List.nil_append]
      by_cases h : last = some t
      · simp only [collapseFrom, if_pos h]
      · simp only [collapseFrom, if_neg h]
        simp
  | cons x xs' ih =>
      intro last ys
      rw [List.cons_append, List.cons_append]
      by_cases h : last = some x
      · simp only [collapseFrom, if_pos h]
        exact ih last ys
      · simp only [collapseFrom, if_neg h]
        exact congrArg (x :: ·) (ih (some x) ys)

theorem status_not_delivered (r : Reply) (h : isStatusReply r = true) :
    isDeliveredReply r = false := by
  simp only [isStatusReply, Bool.and_eq_true, Bool.not_eq_true'] at h
  simp [isDeliveredReply, h.1, h.2]

theorem specSummarize_congr (rs₁ rs₂ : List Reply)
    (hsend : newNames [] (statusNames rs₁) = newNames [] (statusNames rs₂))
    (htexts : ∀ m, collapseAdj (textsOf m rs₁) = collapseAdj (textsOf m rs₂))
    (hdel : deliveredSegsSpec rs₁ = deliveredSegsSpec rs₂)
    (hany : rs₁.any isDeliveredReply = rs₂.any isDeliveredReply) :
    specSummarize rs₁ = specSummarize rs₂ := by
  simp only [specSummarize]
  rw [hsend, hdel, hany,
    List.map_congr_left
      (fun m _ => by rw [htexts m] :
        ∀ m ∈ newNames [] (statusNames rs₂),
          m ++ ": " ++ joinSep ", " (collapseAdj (textsOf m rs₁)) =
            m ++ ": " ++ joinSep ", " (collapseAdj (textsOf m rs₂)))]

/-- C4: aggregation is deterministic; inserting an immediate duplicate of a
non-delivered reply leaves the summary unchanged; and the same duplicate
placed non-adjacently (a different text from the same sender in between)
appears again in that sender's segment. -/
theorem C4_adjacent_duplicate_collapse :
    (∀ rs : List Reply,
      summarize_a2a_responses rs = summarize_a2a_responses rs) ∧
    (∀ (pre post : List Reply) (r : Reply), isDeliveredReply r = false →
      summarize_a2a_responses (pre ++ r :: r :: post) =
        summarize_a2a_responses (pre ++ r :: post)) ∧
    (∀ n t t' : String, isStatusReply ⟨n, t⟩ = true →
      isStatusReply ⟨n, t'⟩ = true → pyStrip t ≠ pyStrip t' →
      summarize_a2a_responses [⟨n, t⟩, ⟨n, t'⟩, ⟨n, t⟩] =
        "Order status updates: " ++ n ++ ": " ++ pyStrip t ++ ", " ++
          pyStrip t' ++ ", " ++ pyStrip t) := by
  refine ⟨fun rs => rfl, ?_, ?_⟩
  · intro pre post r hdel
    rw [summarize_eq_spec, summarize_eq_spec]
    by_cases hst : isStatusReply r = true
    · refine specSummarize_congr _ _ ?_ ?_ ?_ ?_
      · have h1 : statusNames (pre ++ r :: r :: post) =
            statusNames pre ++ r.name :: r.name :: statusNames post := by
          simp [statusNames, List.filter_append, List.filter_cons, hst]
        have h2 : statusNames (pre ++ r :: post) =
            statusNames pre ++ r.name :: statusNames post := by
          simp [statusNames, List.filter_append, List.filter_cons, hst]
        rw [h1, h2, newNames_dup]
      · intro m
        by_cases hm : r.name = m
        · have h1 : textsOf m (pre ++ r :: r :: post) =
              textsOf m pre ++
                pyStrip r.text :: pyStrip r.text :: textsOf m post := by
            simp [textsOf, List.filter_append, List.filter_cons, hst, hm]
          have h2 : textsOf m (pre ++ r :: post) =
              textsOf m pre ++ pyStrip r.text :: textsOf m post := by
            simp [textsOf, List.filter_append, List.filter_cons, hst, hm]
          rw [h1, h2]
          unfold collapseAdj
          rw [collapseFrom_dup]
        · have hm' : ¬ (r.name = m) := hm
          have h1 : textsOf m (pre ++ r :: r :: post) =
              textsOf m pre ++ textsOf m post := by
            simp [textsOf, List.filter_append, List.filter_cons, hst, hm']
          have h2 : textsOf m (pre ++ r :: post) =
              textsOf m pre ++ textsOf m post := by
            simp [textsOf, List.filter_append, List.filter_cons, hst, hm']
          rw [h1, h2]
      · simp [deliveredSegsSpec, List.filter_append, List.filter_cons, hdel]
      · simp [hdel]
    · have hst' : isStatusReply r = false := by simpa using hst
      refine specSummarize_congr _ _ ?_ ?_ ?_ ?_
      · simp [statusNames, List.filter_append, List.filter_cons, hst']
      · intro m
        simp [textsOf, List.filter_append, List.filter_cons, hst']
      · simp [deliveredSegsSpec, List.filter_append, List.filter_cons, hdel]
      · simp [hdel]
  · intro n t t' h1 h2 hne
    rw [summarize_eq_spec]
    have hd1 : isDeliveredReply ⟨n, t⟩ = false := status_not_delivered _ h1
    have hd2 : isDeliveredReply ⟨n, t'⟩ = false := status_not_delivered _ h2
    simp only [specSummarize]
    have hnames : statusNames [⟨n, t⟩, ⟨n, t'⟩, ⟨n, t⟩] = [n, n, n] := by
      simp [statusNames, List.filter_cons, h1, h2]
    have hsend : newNames ([] : List String) [n, n, n] = [n] := by
      simp [newNames, newNames_cons]
    have htexts : textsOf n [⟨n, t⟩, ⟨n, t'⟩, ⟨n, t⟩] =
        [pyStrip t, pyStrip t', pyStrip t] := by
      simp [textsOf, List.filter_cons, h1, h2]
    have hcol : collapseAdj [pyStrip t, pyStrip t', pyStrip t] =
        [pyStrip t, pyStrip t', pyStrip t] := by
      simp [collapseAdj, collapseFrom, hne, Ne.symm hne]
    have hdels : deliveredSegsSpec [⟨n, t⟩, ⟨n, t'⟩, ⟨n, t⟩] = [] := by
      simp [deliveredSegsSpec, List.filter_cons, hd1, hd2]
    have hany : ([⟨n, t⟩, ⟨n, t'⟩, ⟨n, t⟩] : List Reply).any
        isDeliveredReply = false := by
      simp [hd1, hd2]
    rw [hnames, hsend, hdels, hany]
    simp only [List.map_cons, List.map_nil, htexts, hcol, List.append_nil]
    rw [if_neg (by simp), if_neg (by simp)]
    simp [joinSep, String.append_assoc]

/-- Witness for C4 at concrete inputs: an immediate duplicate of the
non-delivered reply `Farm: a` is collapsed, while `a, b, a` from one sender
keeps both occurrences of `a`. -/
theorem C4_adjacent_duplicate_collapse_witness :
    (isDeliveredReply ⟨"Farm", "a"⟩ = false ∧
      summarize_a2a_responses
          ([] ++ (⟨"Farm", "a"⟩ : Reply) :: ⟨"Farm", "a"⟩ :: []) =
        summarize_a2a_responses ([] ++ (⟨"Farm", "a"⟩ : Reply) :: [])) ∧
    (isStatusReply ⟨"Farm", "a"⟩ = true ∧
      isStatusReply ⟨"Farm", "b"⟩ = true ∧
      pyStrip "a" ≠ pyStrip "b" ∧
      summarize_a2a_responses [⟨"Farm", "a"⟩, ⟨"Farm", "b"⟩, ⟨"Farm", "a"⟩] =
        "Order status updates: " ++ "Farm" ++ ": " ++ pyStrip "a" ++ ", " ++
          pyStrip "b" ++ ", " ++ pyStrip "a") :=
  ⟨⟨by decide,
    C4_adjacent_duplicate_collapse.2.1 [] [] ⟨"Farm", "a"⟩ (by decide)⟩,
   ⟨by decide, by decide, by decide,
    C4_adjacent_duplicate_collapse.2.2 "Farm" "a" "b" (by decide) (by decide)
      (by decide)⟩⟩

/-
  Model of the `create_order` entry (tools.py).  Only the control flow up to
  the first collaborator interaction is state: the transport guard (a
  `ValueError` when the configured transport is not SLIM), the two input
  validations, and whether execution proceeds to client creation.  `price`
  (a Python float) is idealised as a rational; `quantity` is an integer.
-/

/-- Outcome of the prologue of `create_order`. -/
inductive CreateOrderStep where
  | transportError
  | earlyReturn (msg : String)
  | proceedStep (farmNorm : String)
deriving DecidableEq

/-- Translation of the validation prologue of `create_order`: transport
guard, then `farm.strip().lower()`, then the `price <= 0 or quantity <= 0`
check, then the empty-farm check; `proceedStep` marks the fall-through to
`factory.create_client` (the first collaborator interaction). -/
def create_order_validate (transport farm : String) (quantity : Int)
    (price : ℚ) : CreateOrderStep :=
  if transport ≠ "SLIM" then .transportError
  else
    let farm' := pyLower (pyStrip farm)
    if price ≤ 0 ∨ quantity ≤ 0 then
      .earlyReturn "Price and quantity must both be greater than zero."
    else if farm' = "" then
      .earlyReturn "No farm provided. Please specify a farm."
    else .proceedStep farm'

/-- C5: with the SLIM transport configured, `create_order` validates before
any collaborator interaction — non-positive quantity or price yields the
plain-text price/quantity message, an empty or whitespace-only farm (with
positive quantity and price) yields the no-farm message, no exception is
raised, and in both cases execution never reaches client creation
(`proceedStep`). -/
theorem C5_create_order_validation :
    (∀ (farm : String) (quantity : Int) (price : ℚ),
      quantity ≤ 0 ∨ price ≤ 0 →
      create_order_validate "SLIM" farm quantity price =
        .earlyReturn "Price and quantity must both be greater than zero.") ∧
    (∀ (farm : String) (quantity : Int) (price : ℚ),
      0 < quantity → 0 < price → pyStrip farm = "" →
      create_order_validate "SLIM" farm quantity price =
        .earlyReturn "No farm provided. Please specify a farm.") ∧
    (∀ (farm : String) (quantity : Int) (price : ℚ),
      create_order_validate "SLIM" farm quantity price ≠ .transportError) ∧
    (∀ (farm : String) (quantity : Int) (price : ℚ) (f : String),
      (quantity ≤ 0 ∨ price ≤ 0 ∨ pyStrip farm = "") →
      create_order_validate "SLIM" farm quantity price ≠ .proceedStep f) := by
  have hslim : ¬ ("SLIM" : String) ≠ "SLIM" := fun h => h rfl
  refine ⟨?_, ?_, ?_, ?_⟩
  · intro farm quantity price h
    unfold create_order_validate
    rw [if_neg hslim, if_pos (Or.symm h)]
  · intro farm quantity price hq hp hfarm
    unfold create_order_validate
    rw [if_neg hslim,
      if_neg (by push_neg; exact ⟨hp, hq⟩),
      if_pos (by rw [hfarm]; rfl)]
  · intro farm quantity price
    unfold create_order_validate
    rw [if_neg hslim]
    by_cases h1 : price ≤ 0 ∨ quantity ≤ 0
    · rw [if_pos h1]; exact fun hc => by cases hc
    · rw [if_neg h1]
      by_cases h2 : pyLower (pyStrip farm) = ""
      · rw [if_pos h2]; exact fun hc => by cases hc
      · rw [if_neg h2]; exact fun hc => by cases hc
  · intro farm quantity price f h
    unfold create_order_validate
    rw [if_neg hslim]
    rcases h with h | h | h
    · rw [if_pos (Or.inr h)]; exact fun hc => by cases hc
    · rw [if_pos (Or.inl h)]; exact fun hc => by cases hc
    · by_cases h1 : price ≤ 0 ∨ quantity ≤ 0
      · rw [if_pos h1]; exact fun hc => by cases hc
      · rw [if_neg h1, if_pos (by rw [h]; rfl)]
        exact fun hc => by cases hc

/-- Witness for C5: scenario C of the spec
(`create_order(farm="", quantity=10, price=5.0)` short-circuits with the
no-farm message) plus a non-positive-price instance. -/
theorem C5_create_order_validation_witness :
    ((0 : Int) < 10 ∧ (0 : ℚ) < 5 ∧ pyStrip "" = "" ∧
      create_order_validate "SLIM" "" 10 5 =
        .earlyReturn "No farm provided. Please specify a farm.") ∧
    (((10 : Int) ≤ 0 ∨ (0 : ℚ) ≤ 0) ∧
      create_order_validate "SLIM" "tatooine" 10 0 =
        .earlyReturn "Price and quantity must both be greater than zero.") :=
  ⟨⟨by decide, by norm_num, by decide,
    C5_create_order_validation.2.1 "" 10 5 (by decide) (by norm_num)
      (by decide)⟩,
   ⟨Or.inr (by norm_num),
    C5_create_order_validation.1 "tatooine" 10 0
      (Or.inr (by norm_num))⟩⟩

/-
  Model of the retry loop of `create_order` (tools.py lines 119–147):
  `max_retries = 3`, `base_delay = 2.0` seconds, `for attempt in range(3)`,
  delay `base_delay * 2 ** attempt` slept after every failed non-final
  attempt, `HTTPException` after the final failure.  `succeeds i` tells
  whether the `start_groupchat` call of attempt `i` (0-based) succeeds;
  backoff is accounted in whole seconds.
-/

/-- Outcome of the retry loop: how many collaborator invocations happened
and how much cumulative backoff was slept before returning. -/
inductive RetryOutcome where
  | success (invocations : Nat) (backoff : Nat)
  | fatal (invocations : Nat) (backoff : Nat)
deriving DecidableEq

/-- The delay slept after failed attempt `attempt`:
`base_delay * (2 ** attempt)` with `base_delay = 2` seconds. -/
def backoffDelay (attempt : Nat) : Nat := 2 * 2 ^ attempt

/-- The `for attempt in range(max_retries)` loop over the remaining attempt
indices: succeed and break, or — unless this was the last attempt — sleep
the exponential delay and retry; the last failure raises. -/
def retryLoop (succeeds : Nat → Bool) (acc : Nat) :
    List Nat → RetryOutcome
  | [] => .fatal 0 acc
  | [a] => if succeeds a then .success (a + 1) acc else .fatal (a + 1) acc
  | a :: b :: rest =>
      if succeeds a then .success (a + 1) acc
      else retryLoop succeeds (acc + backoffDelay a) (b :: rest)

/-- The retry section of `create_order`: three attempts starting with no
backoff. -/
def create_order_retry (succeeds : Nat → Bool) : RetryOutcome :=
  retryLoop succeeds 0 [0, 1, 2]

/-- C6: the backoff starts at 2 s and doubles between attempts; the loop
raises a fatal error iff all 3 attempts fail (after exactly 3 invocations
and 6 s of backoff); and with transient failures on attempts 1–2 and
success on attempt 3 there are exactly 3 collaborator invocations with 6 s
(≥ 6 s) of cumulative backoff before success. -/
theorem C6_retry_backoff_policy :
    (backoffDelay 0 = 2 ∧ ∀ i, backoffDelay (i + 1) = 2 * backoffDelay i) ∧
    (∀ succeeds : Nat → Bool,
      (create_order_retry succeeds = .fatal 3 6 ↔
        succeeds 0 = false ∧ succeeds 1 = false ∧ succeeds 2 = false) ∧
      (∀ i b, create_order_retry succeeds = .fatal i b →
        succeeds 0 = false ∧ succeeds 1 = false ∧ succeeds 2 = false)) ∧
    (∀ succeeds : Nat → Bool, succeeds 0 = false → succeeds 1 = false →
      succeeds 2 = true →
      create_order_retry succeeds = .success 3 6 ∧ 6 ≥ 6) := by
  refine ⟨⟨rfl, fun i => by simp [backoffDelay, Nat.pow_succ]; ring⟩, ?_, ?_⟩
  · intro succeeds
    cases h0 : succeeds 0 <;> cases h1 : succeeds 1 <;>
      cases h2 : succeeds 2 <;>
        simp [create_order_retry, retryLoop, backoffDelay, h0, h1, h2]
  · intro succeeds h0 h1 h2
    refine ⟨?_, Nat.le_refl 6⟩
    simp [create_order_retry, retryLoop, backoffDelay, h0, h1, h2]

/-- Witness for C6: the all-fail run is fatal after 3 invocations and 6 s of
backoff, and the fail-fail-succeed run succeeds on the third invocation with
6 s of backoff. -/
theorem C6_retry_backoff_policy_witness :
    create_order_retry (fun _ => false) = .fatal 3 6 ∧
    ((fun k : Nat => decide (k = 2)) 0 = false ∧
      (fun k : Nat => decide (k = 2)) 1 = false ∧
      (fun k : Nat => decide (k = 2)) 2 = true ∧
      create_order_retry (fun k => decide (k = 2)) = .success 3 6) :=
  ⟨((C6_retry_backoff_policy.2.1 (fun _ => false)).1).mpr ⟨rfl, rfl, rfl⟩,
   ⟨by decide, by decide, by decide,
    (C6_retry_backoff_policy.2.2 (fun k => decide (k = 2)) (by decide)
      (by decide) (by decide)).1⟩⟩

/-
  Model of `common/logistics_states.py`: the `LogisticsStatus` enum, the
  specialized transition narratives, and `build_transition_message`.
-/

/-- The closed lifecycle enumeration. -/
inductive LogisticsStatus where
  | RECEIVED_ORDER
  | HANDOVER_TO_SHIPPER
  | CUSTOMS_CLEARANCE
  | PAYMENT_COMPLETE
  | DELIVERED
  | STATUS_UNKNOWN
deriving DecidableEq

/-- The enum constructor `LogisticsStatus(to_state)` of the source: the
member whose value equals the string, else none (the `except` branch). -/
def statusOfString (s : String) : Option LogisticsStatus :=
  if s = "RECEIVED_ORDER" then some .RECEIVED_ORDER
  else if s = "HANDOVER_TO_SHIPPER" then some .HANDOVER_TO_SHIPPER
  else if s = "CUSTOMS_CLEARANCE" then some .CUSTOMS_CLEARANCE
  else if s = "PAYMENT_COMPLETE" then some .PAYMENT_COMPLETE
  else if s = "DELIVERED" then some .DELIVERED
  else if s = "STATUS_UNKNOWN" then some .STATUS_UNKNOWN
  else none

/-- Header of the wire grammar, `"<STATE> | <Sender> -> <Receiver>: "`. -/
def wireHeader (st sndr recv : String) : String :=
  st ++ " | " ++ sndr ++ " -> " ++ recv ++ ": "

/-- Translation of `_specialized_narrative`: a curated sentence for each of
the five known states, `none` for `STATUS_UNKNOWN` and for any string that
is not an enum value. -/
def specializedNarrative (order_id to_state sender receiver : String) :
    Option String :=
  match statusOfString to_state with
  | none => none
  | some .CUSTOMS_CLEARANCE =>
      some (wireHeader to_state sender receiver ++
        "Customs cleared for order " ++ order_id ++
        "; documents forwarded for payment processing.")
  | some .PAYMENT_COMPLETE =>
      some (wireHeader to_state sender receiver ++
        "Payment confirmed on order " ++ order_id ++
        "; preparing final delivery.")
  | some .DELIVERED =>
      some (wireHeader to_state sender receiver ++
        "Order " ++ order_id ++
        " delivered successfully; closing shipment cycle.")
  | some .HANDOVER_TO_SHIPPER =>
      some (wireHeader to_state sender receiver ++
        "Order " ++ order_id ++
        " handed off for international transit.")
  | some .RECEIVED_ORDER =>
      some (wireHeader to_state sender receiver ++
        "Order " ++ order_id ++
        " intake acknowledged; initiating processing workflow.")
  | some .STATUS_UNKNOWN => none

/-- Characters stripped by `rstrip(".!? ")`. -/
def isPunctSpace (c : Char) : Bool :=
  c = '.' ∨ c = '!' ∨ c = '?' ∨ c = ' '

/-- Right strip of the punctuation set on character lists. -/
def rstripPunctL (l : List Char) : List Char :=
  (l.reverse.dropWhile isPunctSpace).reverse

/-- Python `s.rstrip(".!? ")`. -/
def rstripPunct (s : String) : String := String.mk (rstripPunctL s.data)

/-- Translation of `build_transition_message`: with a specialized narrative
and truthy details, glue `base + ". " + detail_text + "."`; with a narrative
and no details return it verbatim; otherwise fall off the function (Python
returns `None`). -/
def build_transition_message (order_id sender receiver to_state : String)
    (details : Option String) : Option String :=
  match specializedNarrative order_id to_state sender receiver with
  | some spec =>
      if spec ≠ "" then
        match details with
        | some d =>
            if d ≠ "" then
              some (rstripPunct spec ++ ". " ++ rstripPunct (pyStrip d) ++ ".")
            else some spec
        | none => some spec
      else none
  | none => none

theorem rstripPunctL_append (pre post : List Char)
    (h : (post.reverse.dropWhile isPunctSpace).isEmpty = false) :
    rstripPunctL (pre ++ post) = pre ++ rstripPunctL post := by
  unfold rstripPunctL
  rw [List.reverse_append, List.dropWhile_append, if_neg (by simp [h]),
    List.reverse_append, List.reverse_reverse]

theorem build_shape (oid sndr recv st b₁ b₂ : String)
    (hspec : specializedNarrative oid st sndr recv =
      some (wireHeader st sndr recv ++ b₁ ++ oid ++ b₂))
    (hstne : st.data ≠ [])
    (hb₂ : (b₂.data.reverse.dropWhile isPunctSpace).isEmpty = false) :
    (∃ m, build_transition_message oid sndr recv st none = some m ∧
      (wireHeader st sndr recv).data <+: m.data ∧ oid.data <:+: m.data) ∧
    (∀ d : String, d ≠ "" →
      ∃ base, build_transition_message oid sndr recv st (some d) =
          some (base ++ ". " ++ rstripPunct (pyStrip d) ++ ".") ∧
        (wireHeader st sndr recv).data <+: base.data ∧
        oid.data <:+: base.data) := by
  have hm : (wireHeader st sndr recv ++ b₁ ++ oid ++ b₂).data =
      ((wireHeader st sndr recv).data ++ b₁.data ++ oid.data) ++ b₂.data := by
    simp [List.append_assoc]
  have hne : wireHeader st sndr recv ++ b₁ ++ oid ++ b₂ ≠ "" := by
    intro hc
    have hdata := congrArg String.data hc
    rw [hm] at hdata
    simp only [List.append_eq_nil] at hdata
    exact hstne (by
      have := hdata.1.1.1
      simpa [wireHeader] using congrArg (List.take st.data.length) this)
  constructor
  · refine ⟨wireHeader st sndr recv ++ b₁ ++ oid ++ b₂, ?_, ?_, ?_⟩
    · unfold build_transition_message
      rw [hspec]
      simp [hne]
    · exact ⟨b₁.data ++ oid.data ++ b₂.data, by simp [List.append_assoc]⟩
    · exact ⟨(wireHeader st sndr recv).data ++ b₁.data, b₂.data,
        by simp [List.append_assoc]⟩
  · intro d hd
    refine ⟨rstripPunct (wireHeader st sndr recv ++ b₁ ++ oid ++ b₂),
      ?_, ?_, ?_⟩
    · unfold build_transition_message
      rw [hspec]
      simp [hne, hd]
    · show (wireHeader st sndr recv).data <+:
        (rstripPunctL ((wireHeader st sndr recv ++ b₁ ++ oid ++ b₂).data))
      rw [hm, rstripPunctL_append _ _ hb₂]
      exact ⟨b₁.data ++ oid.data ++ rstripPunctL b₂.data,
        by simp [List.append_assoc]⟩
    · show oid.data <:+:
        (rstripPunctL ((wireHeader st sndr recv ++ b₁ ++ oid ++ b₂).data))
      rw [hm, rstripPunctL_append _ _ hb₂]
      exact ⟨(wireHeader st sndr recv).data ++ b₁.data, rstripPunctL b₂.data,
        by simp [List.append_assoc]⟩

/-- The five states with curated narratives. -/
def fiveStates : List String :=
  ["RECEIVED_ORDER", "HANDOVER_TO_SHIPPER", "CUSTOMS_CLEARANCE",
   "PAYMENT_COMPLETE", "DELIVERED"]

/-- C8: for each of the five known lifecycle states,
`build_transition_message` returns a narrative in the wire grammar that
begins with `"<to_state> | <sender> -> <receiver>: "` and embeds the order
id, with optional details appended as a trailing sentence; for any state
outside the five (including `STATUS_UNKNOWN` and non-enum strings) it
returns no message at all. -/
theorem C8_build_transition_message :
    (∀ oid sndr recv st, st ∈ fiveStates →
      ∃ m, build_transition_message oid sndr recv st none = some m ∧
        (wireHeader st sndr recv).data <+: m.data ∧
        oid.data <:+: m.data) ∧
    (∀ oid sndr recv st d, st ∈ fiveStates → d ≠ "" →
      ∃ base, build_transition_message oid sndr recv st (some d) =
          some (base ++ ". " ++ rstripPunct (pyStrip d) ++ ".") ∧
        (wireHeader st sndr recv).data <+: base.data ∧
        oid.data <:+: base.data) ∧
    (∀ oid sndr recv st d, st ∉ fiveStates →
      build_transition_message oid sndr recv st d = none) := by
  have hshape : ∀ oid sndr recv : String, ∀ st ∈ fiveStates,
      ∃ b₁ b₂ : String,
        specializedNarrative oid st sndr recv =
          some (wireHeader st sndr recv ++ b₁ ++ oid ++ b₂) ∧
        st.data ≠ [] ∧
        (b₂.data.reverse.dropWhile isPunctSpace).isEmpty = false := by
    intro oid sndr recv st hmem
    simp only [fiveStates, List.mem_cons, List.not_mem_nil, or_false]
      at hmem
    rcases hmem with rfl | rfl | rfl | rfl | rfl
    · exact ⟨"Order ", " intake acknowledged; initiating processing workflow.",
        rfl, by decide, by decide⟩
    · exact ⟨"Order ", " handed off for international transit.",
        rfl, by decide, by decide⟩
    · exact ⟨"Customs cleared for order ",
        "; documents forwarded for payment processing.",
        rfl, by decide, by decide⟩
    · exact ⟨"Payment confirmed on order ", "; preparing final delivery.",
        rfl, by decide, by decide⟩
    · exact ⟨"Order ", " delivered successfully; closing shipment cycle.",
        rfl, by decide, by decide⟩
  refine ⟨?_, ?_, ?_⟩
  · intro oid sndr recv st hmem
    obtain ⟨b₁, b₂, hspec, hst, hb₂⟩ := hshape oid sndr recv st hmem
    exact (build_shape oid sndr recv st b₁ b₂ hspec hst hb₂).1
  · intro oid sndr recv st d hmem hd
    obtain ⟨b₁, b₂, hspec, hst, hb₂⟩ := hshape oid sndr recv st hmem
    exact (build_shape oid sndr recv st b₁ b₂ hspec hst hb₂).2 d hd
  · intro oid sndr recv st d hmem
    simp only [fiveStates, List.mem_cons, List.not_mem_nil, or_false,
      not_or] at hmem
    obtain ⟨h1, h2, h3, h4, h5⟩ := hmem
    unfold build_transition_message specializedNarrative statusOfString
    rw [if_neg h1, if_neg h2, if_neg h3, if_neg h4, if_neg h5]
    by_cases h6 : st = "STATUS_UNKNOWN"
    · rw [if_pos h6]
    · rw [if_neg h6]

/-- Witness for C8 at concrete inputs: the DELIVERED narrative for an order
id, with and without details, and the refusal for `STATUS_UNKNOWN`. -/
theorem C8_build_transition_message_witness :
    ("DELIVERED" ∈ fiveStates ∧
      ∃ m, build_transition_message "o-1" "Shipper" "Supervisor" "DELIVERED"
          none = some m ∧
        (wireHeader "DELIVERED" "Shipper" "Supervisor").data <+: m.data ∧
        ("o-1" : String).data <:+: m.data) ∧
    (("customs note" : String) ≠ "" ∧
      ∃ base, build_transition_message "o-1" "Shipper" "Supervisor"
          "DELIVERED" (some "customs note") =
          some (base ++ ". " ++ rstripPunct (pyStrip "customs note") ++ ".") ∧
        (wireHeader "DELIVERED" "Shipper" "Supervisor").data <+: base.data ∧
        ("o-1" : String).data <:+: base.data) ∧
    ("STATUS_UNKNOWN" ∉ fiveStates ∧
      build_transition_message "o-1" "Shipper" "Supervisor" "STATUS_UNKNOWN"
        none = none) :=
  ⟨⟨by decide,
    C8_build_transition_message.1 "o-1" "Shipper" "Supervisor" "DELIVERED"
      (by decide)⟩,
   ⟨by decide,
    C8_build_transition_message.2.1 "o-1" "Shipper" "Supervisor" "DELIVERED"
      "customs note" (by decide) (by decide)⟩,
   ⟨by decide,
    C8_build_transition_message.2.2 "o-1" "Shipper" "Supervisor"
      "STATUS_UNKNOWN" none (by decide)⟩⟩

/-
  Model of `_parse_order_event` (tools.py).  The input is the stringified
  response (`str(response)`).  The two `re.search` extractions, the
  grammar splits (`split` with maxsplit 1), the sender normalization (note:
  `str.replace(" agent", "")` removes EVERY occurrence), and the order-id
  regexes are modelled on character lists.  The quote and brace characters
  of the regex literals are built by code point.  The timestamp field
  (wall clock) is omitted.
-/

/-- Apostrophe. -/
def squoteChar : Char := Char.ofNat 39

/-- Opening brace. -/
def lbraceChar : Char := Char.ofNat 123

/-- Closing brace. -/
def rbraceChar : Char := Char.ofNat 125

/-- The literal part of the sender regex `metadata=` `{` `'name': '`. -/
def metaNameLit : List Char :=
  ("metadata=".data) ++ [lbraceChar, squoteChar] ++ ("name".data) ++
    [squoteChar] ++ (": ".data) ++ [squoteChar]

/-- Attempt of the sender regex at one start position: the literal, then a
non-empty run of non-quote characters, then `'` `}`. -/
def tryNameAt (cs : List Char) (i : Nat) : Option String :=
  if matchesAt cs metaNameLit i then
    let rest := cs.drop (i + metaNameLit.length)
    let cap := rest.takeWhile (fun c => c ≠ squoteChar)
    if cap.isEmpty then none
    else if (rest.drop cap.length).take 2 = [squoteChar, rbraceChar] then
      some (String.mk cap)
    else none
  else none

/-- `re.search(r"metadata=\{'name': '([^']+)'\}", s)`: leftmost match. -/
def extractMetaName (cs : List Char) : Option String :=
  (List.range (cs.length + 1)).findSome? (tryNameAt cs)

/-- The literal part of the text regex `text='`. -/
def textLit : List Char := ("text=".data) ++ [squoteChar]

/-- Attempt of the text regex at one start position. -/
def tryTextAt (cs : List Char) (i : Nat) : Option String :=
  if matchesAt cs textLit i then
    let rest := cs.drop (i + textLit.length)
    let cap := rest.takeWhile (fun c => c ≠ squoteChar)
    if cap.isEmpty then none
    else if (rest.drop cap.length).take 1 = [squoteChar] then
      some (String.mk cap)
    else none
  else none

/-- `re.search(r"text='([^']+)'", s)`: leftmost match. -/
def extractTextField (cs : List Char) : Option String :=
  (List.range (cs.length + 1)).findSome? (tryTextAt cs)

/-- Python `raw.replace(" agent", "")`: removes every (non-overlapping,
left-to-right) occurrence of the substring, not only a trailing suffix. -/
def removeAgentAll : List Char → List Char
  | [] => []
  | ' ' :: 'a' :: 'g' :: 'e' :: 'n' :: 't' :: rest => removeAgentAll rest
  | c :: rest => c :: removeAgentAll rest

/-- Sender display-name normalization of the source: any name containing
`Shipping` or `Shipper` collapses to `Shipper`; otherwise every occurrence
of `" agent"` is removed. -/
def normalizeSender (raw : String) : String :=
  if containsSub raw.data ("Shipping".data) ||
      containsSub raw.data ("Shipper".data) then "Shipper"
  else String.mk (removeAgentAll raw.data)

/-- Python `cs.split(sep, 1)` when the separator occurs: the part before the
first occurrence and the part after it; `none` when it does not occur (the
`len(parts) != 2` early return). -/
def splitFirst (sep : List Char) : List Char → Option (List Char × List Char)
  | [] => none
  | c :: rest =>
      if sep.isPrefixOf (c :: rest) then some ([], (c :: rest).drop sep.length)
      else
        match splitFirst sep rest with
        | some (pre, post) => some (c :: pre, post)
        | none => none

/-- Lowercase hexadecimal digit. -/
def isHexDigit (c : Char) : Bool := c.isDigit || ('a' ≤ c ∧ c ≤ 'f')

/-- The dashed-UUID pattern
`[0-9a-f]{8}-[0-9a-f]{4}-[0-9a-f]{4}-[0-9a-f]{4}-[0-9a-f]{12}` matched at
one start position (36 characters, dashes at offsets 8, 13, 18, 23). -/
def matchUuidAt (cs : List Char) (i : Nat) : Bool :=
  let seg := (cs.drop i).take 36
  decide (seg.length = 36) &&
    (List.range 36).all (fun k =>
      if k = 8 ∨ k = 13 ∨ k = 18 ∨ k = 23 then seg.getD k ' ' = '-'
      else isHexDigit (seg.getD k ' '))

/-- Leftmost dashed-UUID match. -/
def findUuidDashed (cs : List Char) : Option (List Char) :=
  ((List.range (cs.length + 1)).find? (fun i => matchUuidAt cs i)).map
    (fun i => (cs.drop i).take 36)

/-- The `[0-9a-f]{32}` pattern matched at one start position. -/
def matchHex32At (cs : List Char) (i : Nat) : Bool :=
  let seg := (cs.drop i).take 32
  decide (seg.length = 32) && seg.all isHexDigit

/-- Leftmost 32-hex-run match. -/
def findHex32 (cs : List Char) : Option (List Char) :=
  ((List.range (cs.length + 1)).find? (fun i => matchHex32At cs i)).map
    (fun i => (cs.drop i).take 32)

/-- Order-id recovery from the message body: leftmost dashed UUID in the
lowercased message, else leftmost 32-character hex run, else `"unknown"`. -/
def extractOrderId (message : String) : String :=
  let low := (pyLower message).data
  match findUuidDashed low with
  | some m => String.mk m
  | none =>
      match findHex32 low with
      | some m => String.mk m
      | none => "unknown"

/-- Structured event produced by `_parse_order_event` (timestamp omitted). -/
structure ParsedEvent where
  order_id : String
  sender : String
  receiver : String
  message : String
  state : String
deriving DecidableEq

/-- Translation of `_parse_order_event`: sender regex (default `"Unknown"`),
text regex (mandatory), the three grammar splits with strips, and the
order-id recovery.  Total function — the Python `except` never fires on
well-typed input, and every grammar failure returns `None`. -/
def parse_order_event (response_str : String) : Option ParsedEvent :=
  let cs := response_str.data
  let sender :=
    match extractMetaName cs with
    | some raw => normalizeSender raw
    | none => "Unknown"
  match extractTextField cs with
  | none => none
  | some txt =>
      match splitFirst ("|".data) txt.data with
      | none => none
      | some (p0, p1) =>
          let state := pyStrip (String.mk p0)
          let remainder := pyStrip (String.mk p1)
          match splitFirst ("->".data) remainder.data with
          | none => none
          | some (_, a1) =>
              let recv_and_msg := pyStrip (String.mk a1)
              match splitFirst (":".data) recv_and_msg.data with
              | none => none
              | some (r0, r1) =>
                  let receiver := pyStrip (String.mk r0)
                  let message := pyStrip (String.mk r1)
                  some ⟨extractOrderId message, sender, receiver, message,
                    state⟩

/-- The wire-grammar text `"<STATE> | <Sender> -> <Receiver>: <Message>"`. -/
def wireText (st sndr recv msg : String) : String :=
  st ++ " | " ++ sndr ++ " -> " ++ recv ++ ": " ++ msg

/-- Specification-side trailing-suffix strip, written from the claim: drop
one trailing `" agent"`, leaving the rest of the name intact. -/
def trailingStripAgent (raw : String) : String :=
  if (" agent".data).isSuffixOf raw.data then
    String.mk (raw.data.take (raw.data.length - 6))
  else raw

/-- A stringified response whose metadata name contains a non-trailing
`" agent"`. -/
def sampleResponse : String :=
  "Message(metadata=" ++ String.mk [lbraceChar, squoteChar] ++ "name" ++
    String.mk [squoteChar] ++ ": " ++ String.mk [squoteChar] ++
    "Lead agent of ops" ++ String.mk [squoteChar, rbraceChar] ++
    ", text=" ++ String.mk [squoteChar] ++
    "RECEIVED_ORDER | Farm -> Shipper: Order abc-123" ++
    String.mk [squoteChar] ++ ")"

theorem singleton_isPrefixOf (c : Char) (l : List Char) :
    ([c].isPrefixOf l = true) ↔ l.head? = some c := by
  cases l with
  | nil => simp
  | cons x xs =>
      constructor
      · intro h
        have hpre : [c] <+: x :: xs := by simpa using h
        obtain ⟨t, ht⟩ := hpre
        have hcx : c = x := by
          have := congrArg List.head? ht
          simpa using this
        simp [hcx]
      · intro h
        have hx : x = c := by simpa using h
        subst hx
        have hpre : [x] <+: x :: xs := ⟨xs, rfl⟩
        simpa using hpre

theorem matchesAt_getElem (cs sep : List Char) (i k : Nat)
    (h : matchesAt cs sep i = true) (hk : k < sep.length) :
    cs[i + k]? = sep[k]? := by
  unfold matchesAt at h
  have hpre : sep <+: cs.drop i := by simpa using h
  have heq := List.prefix_iff_eq_take.mp hpre
  rw [← List.getElem?_drop]
  conv_rhs => rw [heq]
  rw [List.getElem?_take_of_lt hk]

theorem matchesAt_restrict (xs ys sep : List Char) (i : Nat)
    (h : matchesAt (xs ++ ys) sep i = true)
    (hlen : i + sep.length ≤ xs.length) :
    matchesAt xs sep i = true := by
  unfold matchesAt at h ⊢
  rw [List.drop_append_of_le_length (by omega)] at h
  have hpre : sep <+: xs.drop i ++ ys := by simpa using h
  have h2 := List.prefix_iff_eq_take.mp hpre
  rw [List.take_append_eq_append_take,
    show sep.length - (xs.drop i).length = 0 by
      rw [List.length_drop]; omega,
    List.take_zero, List.append_nil] at h2
  simpa using List.prefix_iff_eq_take.mpr h2

theorem contains_of_matchesAt (cs sep : List Char) (i : Nat)
    (h : matchesAt cs sep i = true) (hsep : sep ≠ []) :
    containsSub cs sep = true := by
  unfold containsSub
  rw [List.any_eq_true]
  refine ⟨i, List.mem_range.mpr ?_, h⟩
  unfold matchesAt at h
  have hpre : sep <+: cs.drop i := by simpa using h
  have h1 := hpre.length_le
  rw [List.length_drop] at h1
  have h2 : 0 < sep.length := List.length_pos.mpr hsep
  omega

theorem not_matchesAt (cs sep : List Char) (hsub : containsSub cs sep = false)
    (hsep : sep ≠ []) (i : Nat) : matchesAt cs sep i = false := by
  cases hm : matchesAt cs sep i
  · rfl
  · exact absurd (contains_of_matchesAt cs sep i hm hsep) (by simp [hsub])

theorem trimChars_cons_ws (c : Char) (l : List Char) (hc : isPyWs c = true) :
    trimChars (c :: l) = trimChars l := by
  unfold trimChars
  rw [List.dropWhile_cons_of_pos hc]

theorem trimChars_length_le (l : List Char) :
    (trimChars l).length ≤ l.length := by
  unfold trimChars
  have h1 : (l.dropWhile isPyWs).length ≤ l.length :=
    List.Sublist.length_le (List.dropWhile_sublist _)
  have h2 : ((l.dropWhile isPyWs).reverse.dropWhile isPyWs).length ≤
      (l.dropWhile isPyWs).reverse.length :=
    List.Sublist.length_le (List.dropWhile_sublist _)
  simp only [List.length_reverse] at h2 ⊢
  omega

theorem trimChars_append_ws (l : List Char) (c : Char)
    (hc : isPyWs c = true) : trimChars (l ++ [c]) = trimChars l := by
  unfold trimChars
  rw [List.dropWhile_append]
  by_cases he : (l.dropWhile isPyWs).isEmpty
  · rw [if_pos he, show ([c].dropWhile isPyWs) = [] by simp [hc],
      show l.dropWhile isPyWs = [] by simpa [List.isEmpty_iff] using he]
  · rw [if_neg he, List.reverse_append]
    simp only [List.reverse_cons, List.reverse_nil, List.nil_append,
      List.singleton_append]
    rw [List.dropWhile_cons_of_pos hc]

theorem trimChars_eq_self (l : List Char)
    (hh : ∀ c, l.head? = some c → isPyWs c = false)
    (hl : ∀ c, l.getLast? = some c → isPyWs c = false) :
    trimChars l = l := by
  unfold trimChars
  have h1 : l.dropWhile isPyWs = l := by
    cases l with
    | nil => rfl
    | cons c t => rw [List.dropWhile_cons_of_neg (by simp [hh c rfl])]
  rw [h1]
  have h2 : l.reverse.dropWhile isPyWs = l.reverse := by
    cases hr : l.reverse with
    | nil => rfl
    | cons c t =>
        have hlast : l.getLast? = some c := by
          rw [← List.head?_reverse, hr]
          rfl
        rw [List.dropWhile_cons_of_neg (by simp [hl c hlast])]
  rw [h2, List.reverse_reverse]

theorem head_not_ws_of_trimmed (l : List Char) (h : trimChars l = l) :
    ∀ c, l.head? = some c → isPyWs c = false := by
  intro c hc
  cases l with
  | nil => cases hc
  | cons c' t =>
      have hcc : c' = c := by
        simp only [List.head?_cons, Option.some.injEq] at hc
        exact hc
      subst hcc
      cases hws : isPyWs c'
      · rfl
      · have h2 := trimChars_cons_ws c' t hws
        rw [h] at h2
        have h3 := trimChars_length_le t
        have h4 := congrArg List.length h2
        simp at h4
        omega

theorem last_not_ws_of_trimmed (l : List Char) (h : trimChars l = l) :
    ∀ c, l.getLast? = some c → isPyWs c = false := by
  intro c hc
  rw [← List.head?_reverse] at hc
  cases hr : l.reverse with
  | nil => rw [hr] at hc; cases hc
  | cons c' t =>
      rw [hr] at hc
      have hcc : c' = c := by
        simp only [List.head?_cons, Option.some.injEq] at hc
        exact hc
      subst hcc
      cases hws : isPyWs c'
      · rfl
      · have hl : l = t.reverse ++ [c'] := by
          have := congrArg List.reverse hr
          simpa using this
        have h2 : trimChars l = trimChars t.reverse :=
          hl ▸ trimChars_append_ws t.reverse c' hws
        rw [h] at h2
        have h3 := trimChars_length_le t.reverse
        have h4 := congrArg List.length h2
        rw [hl] at h4
        simp at h3 h4
        omega

theorem splitFirst_at (sep pre post : List Char) (hsep : sep ≠ [])
    (hclean : ∀ i < pre.length,
      sep.isPrefixOf ((pre ++ sep ++ post).drop i) = false) :
    splitFirst sep (pre ++ sep ++ post) = some (pre, post) := by
  induction pre with
  | nil =>
      simp only [List.nil_append]
      cases sep with
      | nil => exact absurd rfl hsep
      | cons c cs =>
          rw [show (c :: cs) ++ post = c :: (cs ++ post) from rfl,
            splitFirst]
          rw [if_pos (by
            rw [show c :: (cs ++ post) = (c :: cs) ++ post from rfl]
            simp)]
          rw [show c :: (cs ++ post) = (c :: cs) ++ post from rfl,
            List.drop_left]
  | cons c pre' ih =>
      have h0 := hclean 0 (by simp)
      rw [show ((c :: pre') ++ sep ++ post) = c :: (pre' ++ sep ++ post)
        from rfl] at h0 ⊢
      rw [splitFirst]
      rw [if_neg (by
        simp only [List.drop_zero] at h0
        simp only [h0]
        exact Bool.false_ne_true)]
      rw [ih (fun i hi => by
        have := hclean (i + 1) (by simpa using Nat.succ_lt_succ hi)
        simpa using this)]

theorem head?_drop_eq (l : List Char) (i : Nat) :
    (l.drop i).head? = l[i]? := by
  rw [List.head?_eq_getElem?, List.getElem?_drop, Nat.add_zero]

theorem data_ne_nil (s : String) (h : s ≠ "") : s.data ≠ [] := by
  intro hc
  exact h (String.ext (hc.trans rfl))

theorem getElem?_ne_of_not_contains_single (cs : List Char) (c : Char)
    (h : containsSub cs [c] = false) (i : Nat) : cs[i]? ≠ some c := by
  intro hc
  have hm : matchesAt cs [c] i = true := by
    unfold matchesAt
    rw [(singleton_isPrefixOf c (cs.drop i)).mpr (by rw [head?_drop_eq, hc])]
  exact absurd (contains_of_matchesAt cs [c] i hm (by simp)) (by simp [h])

theorem trimmed_data (s : String) (h : pyStrip s = s) :
    trimChars s.data = s.data := by
  have := congrArg String.data h
  simpa [pyStrip] using this

theorem pyStrip_mk_eq_self (l : List Char)
    (hh : ∀ c, l.head? = some c → isPyWs c = false)
    (hl : ∀ c, l.getLast? = some c → isPyWs c = false) :
    pyStrip (String.mk l) = String.mk l := by
  unfold pyStrip
  rw [show (String.mk l).data = l from rfl, trimChars_eq_self l hh hl]

theorem clean_single (target : List Char) (c : Char) (pre : List Char)
    (hpre : ∀ i : Nat, pre[i]? ≠ some c)
    (hfull : ∀ i < pre.length, target[i]? = pre[i]?) :
    ∀ i < pre.length, ([c].isPrefixOf (target.drop i)) = false := by
  intro i hi
  cases hp : [c].isPrefixOf (target.drop i)
  · rfl
  · exfalso
    have hhead := (singleton_isPrefixOf c _).mp hp
    rw [head?_drop_eq, hfull i hi] at hhead
    exact hpre i hhead

theorem append_singleton_getElem (l : List Char) (c : Char) :
    (l ++ [c])[l.length]? = some c := by
  rw [List.getElem?_append_right (Nat.le_refl _)]
  simp

theorem getLast?_cons_of_getLast? (a c : Char) (l : List Char)
    (h : l.getLast? = some c) : (a :: l).getLast? = some c := by
  rw [List.getLast?_cons, h]
  rfl

theorem getLast?_append_of_getLast? (l l' : List Char) (c : Char)
    (h : l'.getLast? = some c) : (l ++ l').getLast? = some c := by
  rw [List.getLast?_append, h]
  rfl

theorem parse_wire_grammar (s st sndr recv msg : String)
    (htxt : extractTextField s.data = some (wireText st sndr recv msg))
    (hst : pyStrip st = st) (hsndr : pyStrip sndr = sndr)
    (hrecv : pyStrip recv = recv) (hmsg : pyStrip msg = msg)
    (hsne : sndr ≠ "") (hrne : recv ≠ "") (hmne : msg ≠ "")
    (hpipe : containsSub st.data ("|".data) = false)
    (harrow : containsSub sndr.data ("->".data) = false)
    (hcolon : containsSub recv.data (":".data) = false) :
    parse_order_event s = some
      { order_id := extractOrderId msg,
        sender :=
          match extractMetaName s.data with
          | some raw => normalizeSender raw
          | none => "Unknown",
        receiver := recv, message := msg, state := st } := by
  obtain ⟨c₀, cs₀, hc₀⟩ : ∃ c cs, sndr.data = c :: cs := by
    cases hx : sndr.data with
    | nil => exact absurd hx (data_ne_nil sndr hsne)
    | cons c cs => exact ⟨c, cs, rfl⟩
  obtain ⟨c₁, cs₁, hc₁⟩ : ∃ c cs, recv.data = c :: cs := by
    cases hx : recv.data with
    | nil => exact absurd hx (data_ne_nil recv hrne)
    | cons c cs => exact ⟨c, cs, rfl⟩
  obtain ⟨cm, hcm⟩ : ∃ c, msg.data.getLast? = some c := by
    cases hx : msg.data.getLast? with
    | none =>
        exact absurd (List.getLast?_eq_none_iff.mp hx) (data_ne_nil msg hmne)
    | some c => exact ⟨c, rfl⟩
  have hheadS : isPyWs c₀ = false :=
    head_not_ws_of_trimmed sndr.data (trimmed_data sndr hsndr) c₀
      (by rw [hc₀]; rfl)
  have hheadR : isPyWs c₁ = false :=
    head_not_ws_of_trimmed recv.data (trimmed_data recv hrecv) c₁
      (by rw [hc₁]; rfl)
  have hlastM : isPyWs cm = false :=
    last_not_ws_of_trimmed msg.data (trimmed_data msg hmsg) cm hcm
  -- the three grammar layers of the text
  have hpost₂ : ∃ post₂ : List Char,
      post₂ = ' ' :: ((recv.data ++ (":".data)) ++ (' ' :: msg.data)) :=
    ⟨_, rfl⟩
  obtain ⟨post₂, hpost₂⟩ := hpost₂
  have hrest₁ : ∃ rest₁ : List Char,
      rest₁ = ' ' :: (((sndr.data ++ [' ']) ++ ("->".data)) ++ post₂) :=
    ⟨_, rfl⟩
  obtain ⟨rest₁, hrest₁⟩ := hrest₁
  have hdata : (wireText st sndr recv msg).data =
      ((st.data ++ [' ']) ++ ("|".data)) ++ rest₁ := by
    rw [hrest₁, hpost₂]
    simp [wireText, List.append_assoc]
  -- stage 1: split on the first pipe
  have hpipe' : containsSub st.data ['|'] = false := hpipe
  have hpre1 : ∀ i : Nat, (st.data ++ [' '])[i]? ≠ some '|' := by
    intro i hc
    rw [List.getElem?_append] at hc
    by_cases hlt : i < st.data.length
    · rw [if_pos hlt] at hc
      exact getElem?_ne_of_not_contains_single st.data '|' hpipe' i hc
    · rw [if_neg hlt] at hc
      cases hj : i - st.data.length with
      | zero => rw [hj] at hc; simp at hc
      | succ j => rw [hj] at hc; simp at hc
  have hfull1 : ∀ i < (st.data ++ [' ']).length,
      ((((st.data ++ [' ']) ++ ("|".data)) ++ rest₁))[i]? =
        (st.data ++ [' '])[i]? := by
    intro i hi
    rw [List.getElem?_append_left (by simp at hi ⊢; omega),
      List.getElem?_append_left hi]
  have s1 : splitFirst ("|".data) (((st.data ++ [' ']) ++ ("|".data)) ++
      rest₁) = some (st.data ++ [' '], rest₁) :=
    splitFirst_at ("|".data) (st.data ++ [' ']) rest₁ (by decide)
      (clean_single _ '|' (st.data ++ [' ']) hpre1 hfull1)
  have e_state : pyStrip (String.mk (st.data ++ [' '])) = st := by
    unfold pyStrip
    rw [show (String.mk (st.data ++ [' '])).data = st.data ++ [' ']
      from rfl]
    rw [trimChars_append_ws st.data ' ' (by decide), trimmed_data st hst]
  -- the remainder strips to the sender/receiver/message layer
  have hL1 : (' ' :: msg.data).getLast? = some cm :=
    getLast?_cons_of_getLast? ' ' cm msg.data hcm
  have hL2 : ((recv.data ++ (":".data)) ++ (' ' :: msg.data)).getLast? =
      some cm := getLast?_append_of_getLast? _ _ _ hL1
  have hL3 : post₂.getLast? = some cm := by
    rw [hpost₂]
    exact getLast?_cons_of_getLast? _ _ _ hL2
  have hL4 : ((((sndr.data ++ [' ']) ++ ("->".data)) ++ post₂)).getLast? =
      some cm := getLast?_append_of_getLast? _ _ _ hL3
  have hH4 : ((((sndr.data ++ [' ']) ++ ("->".data)) ++ post₂)).head? =
      some c₀ := by
    rw [hc₀]
    rfl
  have hH2 : ((recv.data ++ (":".data)) ++ (' ' :: msg.data)).head? =
      some c₁ := by
    rw [hc₁]
    rfl
  have e_rem : (pyStrip (String.mk rest₁)).data =
      ((sndr.data ++ [' ']) ++ ("->".data)) ++ post₂ := by
    rw [hrest₁]
    show trimChars (' ' :: _) = _
    rw [trimChars_cons_ws _ _ (by decide)]
    refine trimChars_eq_self _ ?_ ?_
    · intro c hc
      rw [hH4] at hc
      exact Option.some.inj hc ▸ hheadS
    · intro c hc
      rw [hL4] at hc
      exact Option.some.inj hc ▸ hlastM
  -- stage 2: split on the first arrow
  have hclean2 : ∀ i < (sndr.data ++ [' ']).length,
      ("->".data).isPrefixOf (((((sndr.data ++ [' ']) ++ ("->".data)) ++
        post₂)).drop i) = false := by
    intro i hi
    cases hp : ("->".data).isPrefixOf
      ((((sndr.data ++ [' ']) ++ ("->".data)) ++ post₂).drop i)
    · rfl
    · exfalso
      have hm : matchesAt (((sndr.data ++ [' ']) ++ ("->".data)) ++ post₂)
          ("->".data) i = true := hp
      have hmr : matchesAt (sndr.data ++ ([' '] ++ (("->".data) ++
          post₂))) ("->".data) i = true := by
        rw [show sndr.data ++ ([' '] ++ (("->".data) ++ post₂)) =
          ((sndr.data ++ [' ']) ++ ("->".data)) ++ post₂ by
            simp [List.append_assoc]]
        exact hm
      simp only [List.length_append, List.length_cons, List.length_nil]
        at hi
      have hsp : (sndr.data ++ ([' '] ++ (("->".data) ++ post₂)))[sndr.data.length]? = some ' ' := by
        rw [List.getElem?_append_right (Nat.le_refl _), Nat.sub_self]
        rfl
      by_cases hcase : i + 2 ≤ sndr.data.length
      · have hres := matchesAt_restrict sndr.data
          ([' '] ++ (("->".data) ++ post₂)) ("->".data) i hmr hcase
        exact absurd (contains_of_matchesAt _ _ _ hres (by decide))
          (by simp [harrow])
      · rcases (by omega : i = sndr.data.length ∨
            i + 1 = sndr.data.length) with hcc | hcc
        · have hk := matchesAt_getElem _ _ i 0 hmr (by decide)
          rw [Nat.add_zero, hcc, hsp] at hk
          exact absurd hk (by decide)
        · have hk := matchesAt_getElem _ _ i 1 hmr (by decide)
          rw [hcc, hsp] at hk
          exact absurd hk (by decide)
  have s2 : splitFirst ("->".data) (((sndr.data ++ [' ']) ++ ("->".data))
      ++ post₂) = some (sndr.data ++ [' '], post₂) :=
    splitFirst_at ("->".data) (sndr.data ++ [' ']) post₂ (by decide) hclean2
  -- the receiver/message part strips cleanly
  have e_ram : (pyStrip (String.mk post₂)).data =
      (recv.data ++ (":".data)) ++ (' ' :: msg.data) := by
    rw [hpost₂]
    show trimChars (' ' :: _) = _
    rw [trimChars_cons_ws _ _ (by decide)]
    refine trimChars_eq_self _ ?_ ?_
    · intro c hc
      rw [hH2] at hc
      exact Option.some.inj hc ▸ hheadR
    · intro c hc
      rw [hL2] at hc
      exact Option.some.inj hc ▸ hlastM
  -- stage 3: split on the first colon
  have hcolon' : containsSub recv.data [':'] = false := hcolon
  have hpre3 : ∀ i : Nat, recv.data[i]? ≠ some ':' :=
    getElem?_ne_of_not_contains_single recv.data ':' hcolon'
  have hfull3 : ∀ i < recv.data.length,
      (((recv.data ++ (":".data)) ++ (' ' :: msg.data)))[i]? =
        recv.data[i]? := by
    intro i hi
    rw [List.getElem?_append_left (by simp only [List.length_append]; omega),
      List.getElem?_append_left hi]
  have s3 : splitFirst (":".data) ((recv.data ++ (":".data)) ++
      (' ' :: msg.data)) = some (recv.data, ' ' :: msg.data) :=
    splitFirst_at (":".data) recv.data (' ' :: msg.data) (by decide)
      (clean_single _ ':' recv.data hpre3 hfull3)
  have e_recv : pyStrip (String.mk recv.data) = recv := by
    unfold pyStrip
    rw [show (String.mk recv.data).data = recv.data from rfl,
      trimmed_data recv hrecv]
  have e_msg : pyStrip (String.mk (' ' :: msg.data)) = msg := by
    unfold pyStrip
    rw [show (String.mk (' ' :: msg.data)).data = ' ' :: msg.data from rfl,
      trimChars_cons_ws _ _ (by decide), trimmed_data msg hmsg]
  simp only [parse_order_event, htxt, hdata, s1, e_state, e_rem, s2, e_ram,
    s3, e_recv, e_msg]

theorem findUuidDashed_length (cs m : List Char)
    (h : findUuidDashed cs = some m) : m.length = 36 := by
  unfold findUuidDashed at h
  cases hf : (List.range (cs.length + 1)).find? (fun i => matchUuidAt cs i)
    with
  | none =>
      rw [hf, Option.map_none'] at h
      cases h
  | some i =>
      rw [hf, Option.map_some'] at h
      have hm := Option.some.inj h
      have hp := List.find?_some hf
      simp only [matchUuidAt] at hp
      rw [Bool.and_eq_true] at hp
      have hlen := of_decide_eq_true hp.1
      rw [hm] at hlen
      exact hlen

theorem findHex32_length (cs m : List Char)
    (h : findHex32 cs = some m) : m.length = 32 := by
  unfold findHex32 at h
  cases hf : (List.range (cs.length + 1)).find? (fun i => matchHex32At cs i)
    with
  | none =>
      rw [hf, Option.map_none'] at h
      cases h
  | some i =>
      rw [hf, Option.map_some'] at h
      have hm := Option.some.inj h
      have hp := List.find?_some hf
      simp only [matchHex32At] at hp
      rw [Bool.and_eq_true] at hp
      have hlen := of_decide_eq_true hp.1
      rw [hm] at hlen
      exact hlen

theorem extractOrderId_eq (msg : String) :
    extractOrderId msg =
      match findUuidDashed ((pyLower msg).data) with
      | some m => String.mk m
      | none =>
          match findHex32 ((pyLower msg).data) with
          | some m => String.mk m
          | none => "unknown" := rfl

/-- **C7** (amended): for every stringified reply whose `text=` field matches
the wire grammar `"<STATE> | <Sender> -> <Receiver>: <Message>"` (fields
already stripped, non-empty, and free of the later separators),
`_parse_order_event` returns the event whose state/receiver/message are the
grammar fields, whose sender is the normalized metadata name — names
containing `Shipping`/`Shipper` collapse to `Shipper`, otherwise EVERY
occurrence of `" agent"` is removed (the source uses `str.replace`, not a
trailing-suffix strip as claimed) — and whose order id is `"unknown"` iff
the lowercased message contains neither a dashed UUID nor a 32-hex run;
replies with no text field, or whose text lacks the `"|"` separator, yield
`None`. -/
theorem C7_parse_order_event_amended :
    (∀ s st sndr recv msg : String,
      extractTextField s.data = some (wireText st sndr recv msg) →
      pyStrip st = st → pyStrip sndr = sndr → pyStrip recv = recv →
      pyStrip msg = msg → sndr ≠ "" → recv ≠ "" → msg ≠ "" →
      containsSub st.data ("|".data) = false →
      containsSub sndr.data ("->".data) = false →
      containsSub recv.data (":".data) = false →
      parse_order_event s = some
        { order_id := extractOrderId msg,
          sender :=
            match extractMetaName s.data with
            | some raw => normalizeSender raw
            | none => "Unknown",
          receiver := recv, message := msg, state := st }) ∧
    (∀ msg : String, extractOrderId msg = "unknown" ↔
      findUuidDashed ((pyLower msg).data) = none ∧
      findHex32 ((pyLower msg).data) = none) ∧
    (∀ s : String, extractTextField s.data = none →
      parse_order_event s = none) ∧
    (∀ s txt : String, extractTextField s.data = some txt →
      splitFirst ("|".data) txt.data = none →
      parse_order_event s = none) := by
  refine ⟨parse_wire_grammar, ?_, ?_, ?_⟩
  · intro msg
    rw [extractOrderId_eq]
    cases hu : findUuidDashed ((pyLower msg).data) with
    | some m =>
        constructor
        · intro h
          exfalso
          have hlen := findUuidDashed_length _ _ hu
          have hdm : m = ("unknown" : String).data := congrArg String.data h
          rw [hdm] at hlen
          exact absurd hlen (by decide)
        · intro h
          exact Option.noConfusion h.1
    | none =>
        cases hh : findHex32 ((pyLower msg).data) with
        | some m =>
            constructor
            · intro h
              exfalso
              have hlen := findHex32_length _ _ hh
              have hdm : m = ("unknown" : String).data :=
                congrArg String.data h
              rw [hdm] at hlen
              exact absurd hlen (by decide)
            · intro h
              exact Option.noConfusion h.2
        | none => simp
  · intro s h
    simp only [parse_order_event, h]
  · intro s txt h1 h2
    simp only [parse_order_event, h1, h2]

/-- Counterexample for C7's sender clause: the metadata name
`"Lead agent of ops"` carries a non-trailing `" agent"`; the parser's
`replace` deletes it (sender `"Lead of ops"`), while the claimed
trailing-suffix strip would leave the name unchanged. -/
theorem C7_counterexample_nontrailing_agent :
    parse_order_event sampleResponse = some
      { order_id := "unknown", sender := "Lead of ops",
        receiver := "Shipper", message := "Order abc-123",
        state := "RECEIVED_ORDER" } ∧
    extractMetaName sampleResponse.data = some "Lead agent of ops" ∧
    trailingStripAgent "Lead agent of ops" = "Lead agent of ops" ∧
    ("Lead of ops" : String) ≠ "Lead agent of ops" := by
  refine ⟨by decide, by decide, by decide, by decide⟩

/-- Witness for C7: the amended grammar clause instantiated on the sample
response, every hypothesis discharged by evaluation. -/
theorem C7_parse_order_event_amended_witness :
    parse_order_event sampleResponse = some
      { order_id := extractOrderId "Order abc-123",
        sender :=
          match extractMetaName sampleResponse.data with
          | some raw => normalizeSender raw
          | none => "Unknown",
        receiver := "Shipper", message := "Order abc-123",
        state := "RECEIVED_ORDER" } :=
  C7_parse_order_event_amended.1 sampleResponse "RECEIVED_ORDER" "Farm"
    "Shipper" "Order abc-123" (by decide) (by decide) (by decide)
    (by decide) (by decide) (by decide) (by decide) (by decide) (by decide)
    (by decide) (by decide)

/-- Witness for C1: scenario B of the spec (timeout on index 5 of a 1-event
stream echoes `([], 5)`), scenario A (`wait_for_events("O1", 0)` returns
`([ev1], 1)`), and the exact-cover composition at a concrete input. -/
theorem C1_wait_for_events_exact_witness :
    (((StoreState.initial.set "O1" [ev1]).waitForEvents "O1" 5 true).1 =
        some ([], 5)) ∧
    (((StoreState.initial.set "O1" [ev1]).waitForEvents "O1" 0 false).1 =
        some ([ev1], 1)) ∧
    ([ev1] ++ [ev2] =
      (((StoreState.initial.set "O1" [ev1]).appendMany "O1" [ev2]).stream
          "O1").drop 0) := by
  refine ⟨?_, ?_, ?_⟩
  · exact (C1_wait_for_events_exact.1 (StoreState.initial.set "O1" [ev1])
      "O1" 5 true).1 rfl (by decide)
  · exact (C1_wait_for_events_exact.1 (StoreState.initial.set "O1" [ev1])
      "O1" 0 false).2.1 (by decide)
  · exact C1_wait_for_events_exact.2 (StoreState.initial.set "O1" [ev1])
      "O1" 0 false false [ev2] [ev1] [ev2] 1 2 (by decide) (by decide)
      (by decide)
